import Mathlib

/-!
Verification development for the navi virtual-pet ECS core.

Shallow embedding conventions:
* JS numbers are modelled as rationals (ℚ) except where an algorithm uses
  Math.sqrt, where the real numbers are used and the stepping code is
  embedded as a Prop-valued step relation.
* JS Maps and Sets are modelled as insertion-ordered association lists and
  lists without duplicates; Map.set replaces the first matching key in
  place, Map.delete removes it, Set.add appends when absent.
* Component payloads are modelled as values of an opaque type parameter;
  they stand for plain JS objects, which are always truthy, so
  getComponent (source: components.get(name) || null) is the plain lookup.
* Event emission has no listeners in the model; where a claim is about an
  emitted event the embedding returns the event payload to the caller.
-/

/-! ## Stats component (src/js/ecs/components/stats.js) -/

/-- The three pet stats handled by StatsComponent. -/
inductive StatName
  | hunger
  | happiness
  | energy
deriving DecidableEq, Repr

/-- Data shape of the stats component: hunger, happiness, energy and the
lastInteraction timestamp. -/
structure Stats where
  hunger : ℚ
  happiness : ℚ
  energy : ℚ
  lastInteraction : ℚ
deriving DecidableEq, Repr

/-- Field read component[statName]. -/
def Stats.get (c : Stats) : StatName → ℚ
  | .hunger => c.hunger
  | .happiness => c.happiness
  | .energy => c.energy

/-- Field write component[statName] = v. -/
def Stats.set (c : Stats) : StatName → ℚ → Stats
  | .hunger, v => { c with hunger := v }
  | .happiness, v => { c with happiness := v }
  | .energy, v => { c with energy := v }

/-- JS Math.round: round half toward positive infinity, floor(q + 1/2). -/
def jsRound (q : ℚ) : ℤ := ⌊q + 1/2⌋

/-- JS Math.min on two (non-NaN) numbers. -/
def jsMin (a b : ℚ) : ℚ := if a ≤ b then a else b

/-- JS Math.max on two (non-NaN) numbers. -/
def jsMax (a b : ℚ) : ℚ := if a ≤ b then b else a

/-- StatsComponent.updateStat: clamp value into [min, max] (the source
defaults are min = 0, max = 100) and refresh lastInteraction with the
current time, passed explicitly as now.  The source guard
component[statName] !== undefined always holds for the three stat names. -/
def StatsComponent.updateStat (c : Stats) (statName : StatName)
    (value lo hi now : ℚ) : Stats :=
  { c.set statName (jsMax lo (jsMin hi value)) with lastInteraction := now }

/-- StatsComponent.applyModifiers: for each (stat, value) entry add value
to the stat clamped into [0, 100], then refresh lastInteraction. -/
def StatsComponent.applyModifiers (c : Stats)
    (modifiers : List (StatName × ℚ)) (now : ℚ) : Stats :=
  let c1 := modifiers.foldl
    (fun acc p => acc.set p.1 (jsMax 0 (jsMin 100 (acc.get p.1 + p.2)))) c
  { c1 with lastInteraction := now }

/-- StatsComponent.applyDegradation: no-op when hoursPassed ≤ 0; otherwise
for each (stat, hourlyRate): change = round(hourlyRate * hoursPassed);
hunger becomes min 100 (hunger + change), every other stat becomes
max 0 (stat - change).  Note the one-sided clamps. -/
def StatsComponent.applyDegradation (c : Stats)
    (rates : List (StatName × ℚ)) (hoursPassed : ℚ) : Stats :=
  if hoursPassed ≤ 0 then c
  else
    rates.foldl
      (fun acc p =>
        let change : ℤ := jsRound (p.2 * hoursPassed)
        match p.1 with
        | .hunger => acc.set .hunger (jsMin 100 (acc.get .hunger + change))
        | s => acc.set s (jsMax 0 (acc.get s - change)))
      c

/-- One stat modification, as in claim C1.  update uses the source default
bounds min = 0, max = 100. -/
inductive StatsOp
  | update (s : StatName) (v now : ℚ)
  | modify (mods : List (StatName × ℚ)) (now : ℚ)
  | degrade (rates : List (StatName × ℚ)) (hours : ℚ)

/-- Apply a single stat modification. -/
def applyStatsOp (c : Stats) : StatsOp → Stats
  | .update s v now => StatsComponent.updateStat c s v 0 100 now
  | .modify mods now => StatsComponent.applyModifiers c mods now
  | .degrade rates hours => StatsComponent.applyDegradation c rates hours

/-- Apply a finite sequence of stat modifications. -/
def applyStatsOps (c : Stats) (ops : List StatsOp) : Stats :=
  ops.foldl applyStatsOp c

/-- The three stats are within [0, 100]. -/
def StatsInRange (c : Stats) : Prop :=
  0 ≤ c.hunger ∧ c.hunger ≤ 100 ∧
  0 ≤ c.happiness ∧ c.happiness ≤ 100 ∧
  0 ≤ c.energy ∧ c.energy ≤ 100

instance : Decidable (StatsInRange c) := by
  unfold StatsInRange; infer_instance

/-- A modification whose degradation rates are all nonnegative (vacuous for
the other operations). -/
def StatsOpNonneg : StatsOp → Prop
  | .degrade rates _ => ∀ p ∈ rates, 0 ≤ p.2
  | _ => True

/-! ## Appearance component and mood computation (src/unnamed/part_000,
i.e. the appearance component module) -/

/-- Data shape of the appearance component.  status and mood are the
source string enums. -/
structure Appearance where
  graphic : String
  status : String
  mood : String
deriving DecidableEq, Repr

/-- Optional per-stat bounds of one mood tier (source objects like
standing for hunger: max 50). -/
structure StatBounds where
  lowBound : Option ℚ := none
  highBound : Option ℚ := none
deriving DecidableEq, Repr

/-- One mood tier: the Object.entries list of per-stat bounds. -/
abbrev MoodTier := List (StatName × StatBounds)

/-- A species mood-threshold table.  updateMood reads only the happy and
neutral tiers; sad is carried for fidelity but never consulted. -/
structure MoodThresholds where
  happy : Option MoodTier
  neutral : Option MoodTier
  sad : Option MoodTier
deriving DecidableEq, Repr

/-- meetsThresholds: false for an absent tier; otherwise every declared
bound must hold (the source returns false on stats[stat] < min or
stats[stat] > max). -/
def meetsThresholds (stats : Stats) : Option MoodTier → Bool
  | none => false
  | some tier =>
    tier.all fun p =>
      (match p.2.lowBound with
       | none => true
       | some m => !decide (stats.get p.1 < m)) &&
      (match p.2.highBound with
       | none => true
       | some m => !decide (m < stats.get p.1))

/-- The newMood computation inside AppearanceComponent.updateMood: happy
if the happy tier matches, else neutral if the neutral tier matches, else
sad. -/
def computeMood (stats : Stats) (thresholds : MoodThresholds) : String :=
  if meetsThresholds stats thresholds.happy then "happy"
  else if meetsThresholds stats thresholds.neutral then "neutral"
  else "sad"

/-- AppearanceComponent.updateMood: store the recomputed mood and report
whether it changed.  The threshold table is only read. -/
def AppearanceComponent.updateMood (component : Appearance) (stats : Stats)
    (thresholds : MoodThresholds) : Appearance × Bool :=
  let newMood := computeMood stats thresholds
  if component.mood ≠ newMood then
    ({ component with mood := newMood }, true)
  else (component, false)

/-- The defaultCat mood thresholds
(src/js/config/pets/defaultCat/config.js). -/
def defaultCatThresholds : MoodThresholds where
  happy := some
    [(StatName.hunger, { highBound := some 50 }),
     (StatName.happiness, { lowBound := some 50 }),
     (StatName.energy, { lowBound := some 50 })]
  neutral := some
    [(StatName.hunger, { highBound := some 70 }),
     (StatName.happiness, { lowBound := some 30 }),
     (StatName.energy, { lowBound := some 30 })]
  sad := some []

/-! ## Entity and World (src/js/ecs/entity.js, src/js/ecs/world.js)

JS Map semantics over string keys: set replaces the first (unique)
matching entry in place, otherwise appends; delete removes the entry;
get returns the value.  JS Set semantics: add appends when absent,
delete removes.  δ is the opaque type of component payloads (and of
component-type schemas); σ is the opaque type of system objects. -/

/-- JS Map.get on an insertion-ordered association list. -/
def jsGet {β : Type _} : List (String × β) → String → Option β
  | [], _ => none
  | p :: ps, k => if p.1 = k then some p.2 else jsGet ps k

/-- JS Map.has. -/
def jsHas {β : Type _} (m : List (String × β)) (k : String) : Bool :=
  (jsGet m k).isSome

/-- JS Map.set: replace in place or append. -/
def jsSet {β : Type _} : List (String × β) → String → β → List (String × β)
  | [], k, v => [(k, v)]
  | p :: ps, k, v => if p.1 = k then (k, v) :: ps else p :: jsSet ps k v

/-- JS Map.delete (dropping the returned boolean). -/
def jsDelete {β : Type _} : List (String × β) → String → List (String × β)
  | [], _ => []
  | p :: ps, k => if p.1 = k then ps else p :: jsDelete ps k

/-- JS Set.add. -/
def jsSetAdd (s : List String) (x : String) : List String :=
  if x ∈ s then s else s ++ [x]

/-- JS Set.delete (dropping the returned boolean). -/
def jsSetDelete (s : List String) (x : String) : List String :=
  s.filter (fun y => y ≠ x)

/-- Entity: an id with an insertion-ordered map of named components. -/
structure Entity (δ : Type) where
  id : String
  components : List (String × δ)
deriving DecidableEq

/-- Entity.addComponent (set/overwrite). -/
def Entity.addComponent {δ : Type} (e : Entity δ) (componentName : String)
    (componentData : δ) : Entity δ :=
  { e with components := jsSet e.components componentName componentData }

/-- Entity.hasComponent. -/
def Entity.hasComponent {δ : Type} (e : Entity δ)
    (componentName : String) : Bool :=
  jsHas e.components componentName

/-- Entity.getComponent.  The source returns components.get(name) || null;
payloads model plain JS objects, which are truthy, so this is the lookup. -/
def Entity.getComponent {δ : Type} (e : Entity δ)
    (componentName : String) : Option δ :=
  jsGet e.components componentName

/-- Entity.removeComponent: whether the component was present, and the
entity after deletion. -/
def Entity.removeComponent {δ : Type} (e : Entity δ)
    (componentName : String) : Bool × Entity δ :=
  (e.hasComponent componentName,
   { e with components := jsDelete e.components componentName })

/-- Entity.getAllComponents: copy the map into a plain object (first-key
position, last value win on duplicate keys, as JS object assignment). -/
def Entity.getAllComponents {δ : Type} (e : Entity δ) :
    List (String × δ) :=
  e.components.foldl (fun acc p => jsSet acc p.1 p.2) []

/-- Serialized entity: {id, components}. -/
structure SEntity (δ : Type) where
  id : String
  components : List (String × δ)
deriving DecidableEq

/-- Entity.serialize. -/
def Entity.serialize {δ : Type} (e : Entity δ) : SEntity δ :=
  ⟨e.id, e.getAllComponents⟩

/-- Entity.deserialize: rebuild via addComponent over Object.entries. -/
def Entity.deserialize {δ : Type} (data : SEntity δ) : Entity δ :=
  data.components.foldl (fun ent p => ent.addComponent p.1 p.2)
    ⟨data.id, []⟩

/-- Entity-map lookup (Map keyed by entity id; every source call site sets
the key to entity.id). -/
def entGet {δ : Type} : List (Entity δ) → String → Option (Entity δ)
  | [], _ => none
  | e :: es, id => if e.id = id then some e else entGet es id

/-- Entity-map set keyed by entity.id. -/
def entSet {δ : Type} : List (Entity δ) → Entity δ → List (Entity δ)
  | [], e => [e]
  | x :: xs, e => if x.id = e.id then e :: xs else x :: entSet xs e

/-- Entity-map delete keyed by id (Map.delete removes the entry). -/
def entDelete {δ : Type} : List (Entity δ) → String → List (Entity δ)
  | [], _ => []
  | x :: xs, id => if x.id = id then xs else x :: entDelete xs id

/-- The World: entity map, system registry, component-name index of
entity-id sets, the monotonic id counter, and the component-type schema
registry.  The event-listener map carries functions and is outside the
model; emitted events are ignored or returned where a claim needs them. -/
structure World (δ σ : Type) where
  entities : List (Entity δ)
  systems : List (String × σ)
  componentIndex : List (String × List String)
  nextEntityId : ℕ
  componentTypes : List (String × δ)
deriving DecidableEq

/-- The World constructor state. -/
def World.new (δ σ : Type) : World δ σ := ⟨[], [], [], 1, []⟩

/-- World.getEntity. -/
def World.getEntity {δ σ : Type} (w : World δ σ) (entityId : String) :
    Option (Entity δ) :=
  entGet w.entities entityId

/-- this.entities.set(entity.id, entity). -/
def World.setEntity {δ σ : Type} (w : World δ σ) (e : Entity δ) :
    World δ σ :=
  { w with entities := entSet w.entities e }

/-- World.registerComponentType: first registration wins; a duplicate
warns and returns with no change. -/
def World.registerComponentType {δ σ : Type} (w : World δ σ)
    (typeName : String) (schema : δ) : World δ σ :=
  if jsHas w.componentTypes typeName then w
  else { w with componentTypes := jsSet w.componentTypes typeName schema }

/-- World.registerSystem: always stores (replacing any previous system of
that name).  The synchronous init hook acts on the systems themselves and
is outside the model. -/
def World.registerSystem {δ σ : Type} (w : World δ σ)
    (systemName : String) (system : σ) : World δ σ :=
  { w with systems := jsSet w.systems systemName system }

/-- The id used by World.createEntity: the given id when truthy, else
the generated e<nextEntityId>. -/
def World.resolvedId {δ σ : Type} (w : World δ σ)
    (id? : Option String) : String :=
  match id? with
  | some s => if s = "" then "e" ++ toString w.nextEntityId else s
  | none => "e" ++ toString w.nextEntityId

/-- World.createEntity: new entity with no components (new Entity(id ||
generated)), registered in the entity map; the counter is bumped only when
the generated id was used (the postincrement evaluates only for a falsy
id). -/
def World.createEntity {δ σ : Type} (w : World δ σ)
    (id? : Option String) : Entity δ × World δ σ :=
  match id? with
  | some s =>
    if s = "" then
      (⟨"e" ++ toString w.nextEntityId, []⟩,
       { w.setEntity ⟨"e" ++ toString w.nextEntityId, []⟩ with
           nextEntityId := w.nextEntityId + 1 })
    else (⟨s, []⟩, w.setEntity ⟨s, []⟩)
  | none =>
    (⟨"e" ++ toString w.nextEntityId, []⟩,
     { w.setEntity ⟨"e" ++ toString w.nextEntityId, []⟩ with
         nextEntityId := w.nextEntityId + 1 })

/-- World.indexEntityComponent. -/
def World.indexEntityComponent {δ σ : Type} (w : World δ σ)
    (entityId componentName : String) : World δ σ :=
  let cur := (jsGet w.componentIndex componentName).getD []
  { w with componentIndex :=
      jsSet w.componentIndex componentName (jsSetAdd cur entityId) }

/-- World.removeEntityFromIndex. -/
def World.removeEntityFromIndex {δ σ : Type} (w : World δ σ)
    (entityId componentName : String) : World δ σ :=
  match jsGet w.componentIndex componentName with
  | none => w
  | some s =>
    { w with componentIndex :=
        jsSet w.componentIndex componentName (jsSetDelete s entityId) }

/-- World.addEntity: register the entity, then index all of its
components (the entityAdded event has no listeners in the model). -/
def World.addEntity {δ σ : Type} (w : World δ σ) (e : Entity δ) :
    World δ σ :=
  let w1 := w.setEntity e
  e.components.foldl (fun acc p => acc.indexEntityComponent e.id p.1) w1

/-- World.removeEntity: false for an unknown id; otherwise remove the
entity's components from the index, then delete it from the entity map. -/
def World.removeEntity {δ σ : Type} (w : World δ σ) (entityId : String) :
    Bool × World δ σ :=
  match w.getEntity entityId with
  | none => (false, w)
  | some e =>
    let w1 := e.components.foldl
      (fun acc p => acc.removeEntityFromIndex entityId p.1) w
    (true, { w1 with entities := entDelete w1.entities entityId })

/-- World.addComponent: none for an unknown entity; otherwise overwrite
the component and index it. -/
def World.addComponent {δ σ : Type} (w : World δ σ)
    (entityId componentName : String) (componentData : δ) :
    Option (World δ σ) :=
  match w.getEntity entityId with
  | none => none
  | some e =>
    some ((w.setEntity (e.addComponent componentName componentData)).indexEntityComponent
      entityId componentName)

/-- World.removeComponent: false when entity or component is missing;
on success also drop the index entry. -/
def World.removeComponent {δ σ : Type} (w : World δ σ)
    (entityId componentName : String) : Bool × World δ σ :=
  match w.getEntity entityId with
  | none => (false, w)
  | some e =>
    let r := e.removeComponent componentName
    let w1 := w.setEntity r.2
    if r.1 then (true, w1.removeEntityFromIndex entityId componentName)
    else (false, w1)

/-- Payload of the componentUpdated event. -/
structure UpdatedEvent (δ : Type) where
  oldData : Option δ
  newData : δ
deriving DecidableEq

/-- World.updateComponent: none when the entity is unknown or does not
already have the component; otherwise overwrite and return the
componentUpdated payload carrying old and new data.  The component index
is not touched. -/
def World.updateComponent {δ σ : Type} (w : World δ σ)
    (entityId componentName : String) (componentData : δ) :
    Option (World δ σ × UpdatedEvent δ) :=
  match w.getEntity entityId with
  | none => none
  | some e =>
    if e.hasComponent componentName then
      some (w.setEntity (e.addComponent componentName componentData),
        ⟨e.getComponent componentName, componentData⟩)
    else none

/-- World.getEntitiesWith: candidates from the first name's index set,
kept when the entity exists and has every requested component. -/
def World.getEntitiesWith {δ σ : Type} (w : World δ σ)
    (componentNames : List String) : List (Entity δ) :=
  match componentNames with
  | [] => []
  | first :: _ =>
    let candidateIds := (jsGet w.componentIndex first).getD []
    candidateIds.filterMap fun id =>
      match w.getEntity id with
      | some e =>
        if componentNames.all (fun n => e.hasComponent n) then some e
        else none
      | none => none

/-- Serialized world snapshot: entities keyed by id plus the counter. -/
structure SWorld (δ : Type) where
  entities : List (String × SEntity δ)
  nextEntityId : ℕ
deriving DecidableEq

/-- World.serialize. -/
def World.serialize {δ σ : Type} (w : World δ σ) : SWorld δ :=
  ⟨w.entities.map (fun e => (e.id, e.serialize)), w.nextEntityId⟩

/-- World.deserialize: clear entities and index, rebuild each serialized
entity via addEntity (Object.values order), then restore the counter when
it is truthy (a 0 counter is skipped by the source's if).  Listeners and
the worldRestored event are outside the model. -/
def World.deserialize {δ σ : Type} (w : World δ σ) (data : SWorld δ) :
    World δ σ :=
  let w0 : World δ σ := { w with entities := [], componentIndex := [] }
  let w1 := (data.entities.map Prod.snd).foldl
    (fun acc ed => acc.addEntity (Entity.deserialize ed)) w0
  if data.nextEntityId ≠ 0 then { w1 with nextEntityId := data.nextEntityId }
  else w1

/-- The entity/component mutations quantified over in claim C2. -/
inductive WOp (δ : Type)
  | create (id? : Option String)
  | addEnt (e : Entity δ)
  | addComp (entityId componentName : String) (d : δ)
  | removeComp (entityId componentName : String)
  | removeEnt (entityId : String)

/-- Apply one world operation (discarding returned values). -/
def WOp.apply {δ σ : Type} (w : World δ σ) : WOp δ → World δ σ
  | .create id? => (w.createEntity id?).2
  | .addEnt e => w.addEntity e
  | .addComp id n d =>
    match w.addComponent id n d with
    | some w2 => w2
    | none => w
  | .removeComp id n => (w.removeComponent id n).2
  | .removeEnt id => (w.removeEntity id).2

/-- Apply a sequence of world operations. -/
def applyWOps {δ σ : Type} (w : World δ σ) (ops : List (WOp δ)) :
    World δ σ :=
  ops.foldl WOp.apply w

/-- An operation is id-fresh when it does not register an entity under an
id that is already present (always true for the non-registering ops). -/
def WOp.fresh {δ σ : Type} (w : World δ σ) : WOp δ → Bool
  | .create id? => (w.getEntity (w.resolvedId id?)).isNone
  | .addEnt e => (w.getEntity e.id).isNone
  | _ => true

/-- Every operation of the sequence is id-fresh at its application point. -/
def freshRun {δ σ : Type} (w : World δ σ) : List (WOp δ) → Bool
  | [] => true
  | op :: rest => op.fresh w && freshRun (op.apply w) rest

/-- The component-index consistency invariant of claim C2: every id in any
component-index set belongs to an entity in the entity map that has that
component. -/
def Consistent {δ σ : Type} (w : World δ σ) : Prop :=
  ∀ n ids, jsGet w.componentIndex n = some ids →
    ∀ id ∈ ids, ∃ e, w.getEntity id = some e ∧ e.hasComponent n = true

/-- The id list currently indexed under a component name (empty when the
name has no index entry). -/
def idxIds {δ σ : Type} (w : World δ σ) (n : String) : List String :=
  (jsGet w.componentIndex n).getD []

/-- The JS Map representation invariant of a world: entity ids are
distinct, and each entity's component names are distinct. -/
def WFWorld {δ σ : Type} (w : World δ σ) : Prop :=
  (w.entities.map Entity.id).Nodup ∧
  ∀ e ∈ w.entities, (e.components.map Prod.fst).Nodup

instance {δ σ : Type} [DecidableEq δ] (w : World δ σ) :
    Decidable (WFWorld w) := by
  unfold WFWorld
  infer_instance

/-- Concrete snapshot source world for the C5 witness. -/
def c5WitnessWorld : World ℕ ℕ where
  entities := [⟨"pet", [("stats", 3), ("position", 4)]⟩, ⟨"e2", [("stats", 5)]⟩]
  systems := []
  componentIndex := [("stats", ["pet", "e2"]), ("position", ["pet"])]
  nextEntityId := 3
  componentTypes := []

/-- Concrete restore target world (with leftover state to be cleared) for
the C5 witness. -/
def c5TargetWorld : World ℕ ℕ where
  entities := [⟨"old", [("stats", 9)]⟩]
  systems := []
  componentIndex := [("stats", ["old", "gone"])]
  nextEntityId := 7
  componentTypes := []

/-! ## Renderer plugin loader (src/js/ecs/integration.js, loadPlugin and
loadPlugins).  A plugin module is abstracted by its observable loading
behavior: whether the dynamic import rejects, whether it exports
initialize, and whether initialize throws.  Thrown exceptions are caught
by the try/catch of loadPlugin, which is modelled by the total false
return; the loadedPlugins map is modelled by its key list. -/

/-- Loading-relevant behavior of a plugin module. -/
structure PluginModule where
  importThrows : Bool
  hasInitialize : Bool
  initThrows : Bool
deriving DecidableEq

/-- loadPlugin: already-loaded ids short-circuit to true; a rejecting
dynamic module load or a throwing initialize is caught and yields false
without storing; a module without initialize warns and yields false; otherwise
the plugin is stored and true is returned. -/
def loadPlugin (env : String → PluginModule) (loaded : List String)
    (pluginId : String) : Bool × List String :=
  if pluginId ∈ loaded then (true, loaded)
  else
    if (env pluginId).importThrows then (false, loaded)
    else if (env pluginId).hasInitialize then
      if (env pluginId).initThrows then (false, loaded)
      else (true, loaded ++ [pluginId])
    else (false, loaded)

/-- loadPlugins: load each id in order, collecting the ids that loaded
successfully. -/
def loadPlugins (env : String → PluginModule) (loaded : List String) :
    List String → List String × List String
  | [] => ([], loaded)
  | id :: rest =>
    let r := loadPlugin env loaded id
    let rr := loadPlugins env r.2 rest
    (if r.1 then id :: rr.1 else rr.1, rr.2)

/-- Plugin environment for the C7 witness: plugin b throws during
initialize, a and c initialize normally. -/
def c7Env : String → PluginModule := fun id =>
  if id = "b" then ⟨false, true, true⟩ else ⟨false, true, false⟩

/-! ## Movement control state (src/js/ecs/integration.js MovementSystem,
src/unnamed/part_005 walking plugin, src/js/plugins/dragging/main.js
dragging plugin)

Single-entity view of the main-process world: the MovementSystem's
private entitiesWalking entry for the entity, plus the claim-relevant
components.  The entity itself exists (getEntity succeeds).  In
initializeMainProcess the MovementSystem is registered before the plugins
are loaded, so on walkRequested / dragStarted / dragEnded its listener
runs first, then the plugin system's listener. -/

/-- walking.walkState component data. -/
structure MWalkState where
  isWalking : Bool
  target : Option (ℚ × ℚ)
  lastTargetReached : Option (ℚ × ℚ)
deriving DecidableEq, Repr

/-- dragging.dragState component data. -/
structure MDragState where
  isDragging : Bool
  lastPosition : ℚ × ℚ
deriving DecidableEq, Repr

/-- Claim-relevant components of the entity. -/
structure PetCtl where
  hasPosition : Bool
  hasAppearance : Bool
  status : String
  hasStats : Bool
  energy : ℚ
  walkState : Option MWalkState
  dragState : Option MDragState
deriving DecidableEq, Repr

/-- The MovementSystem map entry (msTarget, none when the entity is not in
entitiesWalking) together with the entity components. -/
structure MainCtl where
  msTarget : Option (ℚ × ℚ)
  pet : PetCtl
deriving DecidableEq, Repr

/-- MovementSystem.startWalking: requires position and appearance
components, stores the walk target in entitiesWalking and sets status
walking.  No energy precondition. -/
def msStartWalking (st : MainCtl) (tx ty : ℚ) : Bool × MainCtl :=
  if st.pet.hasPosition = true ∧ st.pet.hasAppearance = true then
    (true,
      { st with
          msTarget := some (tx, ty)
          pet := { st.pet with status := "walking" } })
  else (false, st)

/-- MovementSystem.stopWalking: delete the entitiesWalking entry; when the
entity was walking and has an appearance, restore status idle. -/
def msStopWalking (st : MainCtl) : Bool × MainCtl :=
  if st.msTarget.isSome = true ∧ st.pet.hasAppearance = true then
    (true,
      { st with
          msTarget := none
          pet := { st.pet with status := "idle" } })
  else (st.msTarget.isSome, { st with msTarget := none })

/-- MovementSystem.startDragging: requires appearance; stops any walking
first, then sets status dragging. -/
def msStartDragging (st : MainCtl) : Bool × MainCtl :=
  if st.pet.hasAppearance = true then
    (true,
      { (msStopWalking st).2 with
          pet := { (msStopWalking st).2.pet with status := "dragging" } })
  else (false, st)

/-- MovementSystem.stopDragging: requires appearance; sets status idle
regardless of the current status. -/
def msStopDragging (st : MainCtl) : Bool × MainCtl :=
  if st.pet.hasAppearance = true then
    (true, { st with pet := { st.pet with status := "idle" } })
  else (false, st)

/-- The walkState written by the walking plugin when starting a walk. -/
def wpSetWalk (pet : PetCtl) (tx ty : ℚ) : PetCtl :=
  match pet.walkState with
  | some ws =>
    { pet with
        walkState := some { ws with isWalking := true, target := some (tx, ty) } }
  | none =>
    { pet with walkState := some ⟨true, some (tx, ty), none⟩ }

/-- The status update to walking when the entity has an appearance. -/
def wpSetWalkingStatus (pet : PetCtl) : PetCtl :=
  if pet.hasAppearance = true then { pet with status := "walking" } else pet

/-- walkingSystem.startWalking (walking plugin): an entity with a stats
component and energy below 10 cannot begin walking; otherwise walkState is
set or added (the addComponent indexing is outside this single-entity
model) and status becomes walking. -/
def wpStartWalking (st : MainCtl) (tx ty : ℚ) : Bool × MainCtl :=
  if st.pet.hasStats = true ∧ st.pet.energy < 10 then (false, st)
  else
    (true, { st with pet := wpSetWalkingStatus (wpSetWalk st.pet tx ty) })

/-- The status update to idle when the entity has an appearance. -/
def wpSetIdleStatus (pet : PetCtl) : PetCtl :=
  if pet.hasAppearance = true then { pet with status := "idle" } else pet

/-- walkingSystem.stopWalking: false without a walkState component;
otherwise clear isWalking and target, restore idle when the entity has an
appearance, and report whether it was walking. -/
def wpStopWalking (st : MainCtl) : Bool × MainCtl :=
  match st.pet.walkState with
  | none => (false, st)
  | some ws =>
    (ws.isWalking,
      { st with
          pet := wpSetIdleStatus
            { st.pet with
                walkState :=
                  some { ws with isWalking := false, target := none } } })

/-- The depletion check of the energy-cost block: stop walking when
energy reached 0. -/
def wpChargeStep (st1 : MainCtl) : MainCtl :=
  if st1.pet.energy ≤ 0 then (wpStopWalking st1).2 else st1

/-- dragState set/add of draggingSystem.startDragging. -/
def dpMarkDragging (pet : PetCtl) : PetCtl :=
  match pet.dragState with
  | some ds => { pet with dragState := some { ds with isDragging := true } }
  | none => { pet with dragState := some ⟨true, (0, 0)⟩ }

/-- dragState update of draggingSystem.stopDragging. -/
def dpClearDragging (pet : PetCtl) : PetCtl :=
  match pet.dragState with
  | some ds => { pet with dragState := some { ds with isDragging := false } }
  | none => pet

/-- The energy-cost block of walkingSystem.update (part_005 lines
102-123), reached while processing a walking entity: when at least
energyCostInterval = 5000 ms elapsed since the last charge, an entity
with stats loses energyCost = 1 energy (floored at 0 by Math.max) and
stops walking when the energy is depleted; returns the new state and the
new lastEnergyCostTime. -/
def wpChargeEnergy (st : MainCtl) (now last : ℚ) : MainCtl × ℚ :=
  if 5000 ≤ now - last then
    (if st.pet.hasStats = true then
      wpChargeStep { st with pet := { st.pet with energy := jsMax 0 (st.pet.energy - 1) } }
    else st, now)
  else (st, last)

/-- draggingSystem.startDragging (dragging plugin): sets status dragging
when the entity has an appearance and marks dragState.isDragging.  It does
not touch the walking plugin's walkState. -/
def dpStartDragging (st : MainCtl) : Bool × MainCtl :=
  (true,
    { st with
        pet := dpMarkDragging
          (if st.pet.hasAppearance = true then
            { st.pet with status := "dragging" }
          else st.pet) })

/-- draggingSystem.stopDragging: restores idle when the entity has an
appearance and clears dragState.isDragging when present. -/
def dpStopDragging (st : MainCtl) : Bool × MainCtl :=
  (true,
    { st with
        pet := dpClearDragging
          (if st.pet.hasAppearance = true then
            { st.pet with status := "idle" }
          else st.pet) })

/-- Main-process processing of a walkRequested event: the MovementSystem
listener runs, then the walking plugin listener. -/
def processWalkRequested (st : MainCtl) (tx ty : ℚ) : MainCtl :=
  (wpStartWalking (msStartWalking st tx ty).2 tx ty).2

/-- Main-process processing of a dragStarted event: the MovementSystem
listener runs, then the dragging plugin listener. -/
def processDragStarted (st : MainCtl) : MainCtl :=
  (dpStartDragging (msStartDragging st).2).2

/-- Main-process processing of a dragEnded event: the MovementSystem
listener runs, then the dragging plugin listener. -/
def processDragEnded (st : MainCtl) : MainCtl :=
  (dpStopDragging (msStopDragging st).2).2

/-- A fully equipped idle entity with energy 50, outside any walk. -/
def c9Start : MainCtl :=
  ⟨none, ⟨true, true, "idle", true, 50, none, none⟩⟩

/-! ## Walking tick (src/js/ecs/integration.js MovementSystem.update,
lines 1033-1079)

Per-entity view of one update tick for a walking entity that has a
position component.  JS numbers are idealized as real numbers here because
the update uses Math.sqrt; the code is embedded as a Prop-valued step
relation.  reached counts the emitted targetReached events.  On reaching
(distance < walkingSpeed = 2) the position snaps to the target, the
entitiesWalking entry is removed and status returns to idle (stopWalking),
and one targetReached is emitted; otherwise the position advances by the
unit direction vector times the speed. -/
structure WalkSim (K : Type) where
  x : K
  y : K
  target : Option (K × K)
  status : String
  reached : ℕ
deriving DecidableEq

/-- The snap branch of the tick (distance < 2). -/
def walkSnap (s t : WalkSim ℝ) (tg : ℝ × ℝ) : Prop :=
  Real.sqrt ((tg.1 - s.x) * (tg.1 - s.x) + (tg.2 - s.y) * (tg.2 - s.y)) < 2 ∧
  t = ⟨tg.1, tg.2, none, "idle", s.reached + 1⟩

/-- The move branch of the tick (distance not below 2). -/
def walkMove (s t : WalkSim ℝ) (tg : ℝ × ℝ) : Prop :=
  ¬ Real.sqrt ((tg.1 - s.x) * (tg.1 - s.x) +
      (tg.2 - s.y) * (tg.2 - s.y)) < 2 ∧
  t = ⟨s.x + (tg.1 - s.x) /
        Real.sqrt ((tg.1 - s.x) * (tg.1 - s.x) +
          (tg.2 - s.y) * (tg.2 - s.y)) * 2,
      s.y + (tg.2 - s.y) /
        Real.sqrt ((tg.1 - s.x) * (tg.1 - s.x) +
          (tg.2 - s.y) * (tg.2 - s.y)) * 2,
      some tg, s.status, s.reached⟩

/-- One MovementSystem.update tick for the entity: entities without an
entitiesWalking entry are untouched; otherwise snap or move. -/
def walkTick (s t : WalkSim ℝ) : Prop :=
  match s.target with
  | none => t = s
  | some tg => walkSnap s t tg ∨ walkMove s t tg

/-- A run of the movement update from the claim's start state: position
(0,0), walking toward (100,100), no targetReached emitted yet. -/
def WalkRun (traj : ℕ → WalkSim ℝ) : Prop :=
  traj 0 = ⟨0, 0, some (100, 100), "walking", 0⟩ ∧
  ∀ n, walkTick (traj n) (traj (n + 1))

/-- The state after n move ticks: position (n·r, n·r) where r stands for
the square root of 2, still walking toward (100,100). -/
def wstate (K : Type) [Semiring K] (r : K) (n : ℕ) : WalkSim K :=
  ⟨(n : K) * r, (n : K) * r, some (100, 100), "walking", 0⟩

/-- The final state: exactly at the target, walk cleared, idle, exactly
one targetReached emitted. -/
def wdone (K : Type) [Semiring K] : WalkSim K := ⟨100, 100, none, "idle", 1⟩

/-! ## Theorems -/

theorem jsMin_eq (a b : ℚ) : jsMin a b = min a b := (min_def a b).symm

theorem jsMax_eq (a b : ℚ) : jsMax a b = max a b := (max_def a b).symm

theorem statsInRange_get {c : Stats} (h : StatsInRange c) (s : StatName) :
    0 ≤ c.get s ∧ c.get s ≤ 100 := by
  obtain ⟨h1, h2, h3, h4, h5, h6⟩ := h
  cases s <;> exact ⟨by assumption, by assumption⟩

theorem statsInRange_set {c : Stats} (h : StatsInRange c) (s : StatName)
    {v : ℚ} (hv0 : 0 ≤ v) (hv1 : v ≤ 100) : StatsInRange (c.set s v) := by
  obtain ⟨h1, h2, h3, h4, h5, h6⟩ := h
  cases s <;>
    exact ⟨by assumption, by assumption, by assumption,
      by assumption, by assumption, by assumption⟩

theorem statsInRange_lastInteraction {c : Stats} (h : StatsInRange c)
    (now : ℚ) : StatsInRange { c with lastInteraction := now } := h

theorem clamp01_mem (x : ℚ) :
    0 ≤ jsMax 0 (jsMin 100 x) ∧ jsMax 0 (jsMin 100 x) ≤ 100 := by
  rw [jsMax_eq, jsMin_eq]
  exact ⟨le_max_left 0 _, max_le (by norm_num) (min_le_left 100 x)⟩

theorem jsRound_nonneg {q : ℚ} (hq : 0 ≤ q) : 0 ≤ jsRound q := by
  unfold jsRound
  exact Int.le_floor.mpr (by push_cast; linarith)

theorem statsInRange_updateStat {c : Stats} (h : StatsInRange c)
    (s : StatName) (v now : ℚ) :
    StatsInRange (StatsComponent.updateStat c s v 0 100 now) := by
  unfold StatsComponent.updateStat
  exact statsInRange_lastInteraction
    (statsInRange_set h s (clamp01_mem v).1 (clamp01_mem v).2) now

theorem statsInRange_applyModifiers {c : Stats}
    (mods : List (StatName × ℚ)) (now : ℚ) (h : StatsInRange c) :
    StatsInRange (StatsComponent.applyModifiers c mods now) := by
  unfold StatsComponent.applyModifiers
  apply statsInRange_lastInteraction
  induction mods generalizing c with
  | nil => exact h
  | cons p rest ih =>
    exact ih (statsInRange_set h p.1 (clamp01_mem _).1 (clamp01_mem _).2)

theorem statsInRange_degradeStep {c : Stats} (h : StatsInRange c)
    (p : StatName × ℚ) {hours : ℚ} (hrate : 0 ≤ p.2) (hpos : 0 < hours) :
    StatsInRange
      ((fun acc (p : StatName × ℚ) =>
        let change : ℤ := jsRound (p.2 * hours)
        match p.1 with
        | .hunger => acc.set .hunger (jsMin 100 (acc.get .hunger + change))
        | s => acc.set s (jsMax 0 (acc.get s - change))) c p) := by
  have hchange : (0 : ℚ) ≤ (jsRound (p.2 * hours) : ℚ) := by
    exact_mod_cast jsRound_nonneg (mul_nonneg hrate hpos.le)
  cases hp : p.1 with
  | hunger =>
    have hh := statsInRange_get h StatName.hunger
    simp only [hp]
    refine statsInRange_set h StatName.hunger ?_ ?_
    · rw [jsMin_eq]
      exact le_min (by norm_num) (by linarith [hh.1])
    · rw [jsMin_eq]; exact min_le_left _ _
  | happiness =>
    have hh := statsInRange_get h StatName.happiness
    simp only [hp]
    refine statsInRange_set h StatName.happiness ?_ ?_
    · rw [jsMax_eq]; exact le_max_left _ _
    · rw [jsMax_eq]
      exact max_le (by norm_num) (by linarith [hh.2])
  | energy =>
    have hh := statsInRange_get h StatName.energy
    simp only [hp]
    refine statsInRange_set h StatName.energy ?_ ?_
    · rw [jsMax_eq]; exact le_max_left _ _
    · rw [jsMax_eq]
      exact max_le (by norm_num) (by linarith [hh.2])

theorem statsInRange_applyDegradation {c : Stats}
    {rates : List (StatName × ℚ)} (hours : ℚ)
    (hr : ∀ p ∈ rates, 0 ≤ p.2) (h : StatsInRange c) :
    StatsInRange (StatsComponent.applyDegradation c rates hours) := by
  unfold StatsComponent.applyDegradation
  split
  · exact h
  · rename_i hle
    have hpos : 0 < hours := lt_of_not_le hle
    induction rates generalizing c with
    | nil => exact h
    | cons p rest ih =>
      simp only [List.foldl_cons]
      exact ih (fun q hq => hr q (by simp [hq]))
        (statsInRange_degradeStep h p (hr p (by simp)) hpos)

theorem statsInRange_applyStatsOp {c : Stats} {op : StatsOp}
    (hop : StatsOpNonneg op) (h : StatsInRange c) :
    StatsInRange (applyStatsOp c op) := by
  cases op with
  | update s v now => exact statsInRange_updateStat h s v now
  | modify mods now => exact statsInRange_applyModifiers mods now h
  | degrade rates hours => exact statsInRange_applyDegradation hours hop h

/-- C1 counterexample: the claim quantifies over arbitrary hourly rates,
but StatsComponent.applyDegradation clamps hunger only from above
(min 100) and the other stats only from below (max 0).  With the negative
rate -100 for hunger and one elapsed hour, hunger leaves [0,100]:
starting from stats (50, 50, 50) a single degradation pass drives hunger
to -50. -/
theorem C1_stats_clamped_counterexample :
    StatsInRange ⟨50, 50, 50, 0⟩ ∧
    ¬ StatsInRange (applyStatsOps ⟨50, 50, 50, 0⟩
        [StatsOp.degrade [(StatName.hunger, -100)] 1]) := by
  constructor
  · refine ⟨by norm_num, by norm_num, by norm_num, by norm_num,
      by norm_num, by norm_num⟩
  · intro hcl
    have : (applyStatsOps ⟨50, 50, 50, 0⟩
        [StatsOp.degrade [(StatName.hunger, -100)] 1]) = ⟨-50, 50, 50, 0⟩ := by
      norm_num [applyStatsOps, applyStatsOp, StatsComponent.applyDegradation,
        jsRound, jsMin, jsMax, Stats.get, Stats.set]
    rw [this] at hcl
    exact absurd hcl.1 (by norm_num)

/-- C1 (amended): for every stats component whose hunger, happiness and
energy start in [0,100], after any finite sequence of stat modifications
(updateStat with the source-default bounds 0/100, applyModifiers with
arbitrary modifier values, and applyDegradation with NONNEGATIVE hourly
rates and arbitrary elapsed hours), each of hunger, happiness and energy is
within [0,100].  Since every prefix of such a sequence is itself such a
sequence, this covers every observation point.  The nonnegativity
restriction on degradation rates is forced by the counterexample: the
source clamps degradation one-sidedly. -/
theorem C1_stats_clamped (c : Stats) (ops : List StatsOp)
    (hops : ∀ op ∈ ops, StatsOpNonneg op) (hc : StatsInRange c) :
    StatsInRange (applyStatsOps c ops) := by
  unfold applyStatsOps
  induction ops generalizing c with
  | nil => exact hc
  | cons op rest ih =>
    simp only [List.foldl_cons]
    exact ih _ (fun q hq => hops q (by simp [hq]))
      (statsInRange_applyStatsOp (hops op (by simp)) hc)

/-- Witness for C1: a concrete run of all three modification kinds from
stats (50, 50, 50) stays in range. -/
theorem C1_stats_clamped_witness :
    StatsInRange (applyStatsOps ⟨50, 50, 50, 0⟩
      [StatsOp.update StatName.hunger 150 3,
       StatsOp.modify [(StatName.happiness, -70), (StatName.energy, 30)] 4,
       StatsOp.degrade [(StatName.hunger, 5), (StatName.energy, 3)] 2]) :=
  C1_stats_clamped _ _
    (by
      intro op hop
      simp only [List.mem_cons, List.not_mem_nil, or_false] at hop
      rcases hop with h | h | h <;> subst h <;> simp [StatsOpNonneg])
    ⟨by norm_num, by norm_num, by norm_num, by norm_num, by norm_num,
      by norm_num⟩

/-- C4: mood tiers are evaluated in fixed priority happy then neutral, a
tier matches only if the stats satisfy all of its declared bounds
(meetsThresholds), the first match wins, sad is the unconditional
fallback; updateMood returns true exactly when the stored mood changed and
stores the recomputed mood.  The threshold table is a read-only input of
the embedding, so non-mutation holds by construction.  The two concrete
defaultCat cases of the claim are included: stats (40, 60, 70) give happy
and stats (80, 20, 10) give sad. -/
theorem C4_mood_priority (stats : Stats) (thr : MoodThresholds)
    (app : Appearance) :
    (meetsThresholds stats thr.happy = true →
      computeMood stats thr = "happy")
  ∧ (meetsThresholds stats thr.happy = false →
      meetsThresholds stats thr.neutral = true →
      computeMood stats thr = "neutral")
  ∧ (meetsThresholds stats thr.happy = false →
      meetsThresholds stats thr.neutral = false →
      computeMood stats thr = "sad")
  ∧ ((AppearanceComponent.updateMood app stats thr).2 = true ↔
      app.mood ≠ computeMood stats thr)
  ∧ ((AppearanceComponent.updateMood app stats thr).1 =
      { app with mood := computeMood stats thr })
  ∧ computeMood ⟨40, 60, 70, 0⟩ defaultCatThresholds = "happy"
  ∧ computeMood ⟨80, 20, 10, 0⟩ defaultCatThresholds = "sad" := by
  refine ⟨?_, ?_, ?_, ?_, ?_, ?_, ?_⟩
  · intro h; simp [computeMood, h]
  · intro h1 h2; simp [computeMood, h1, h2]
  · intro h1 h2; simp [computeMood, h1, h2]
  · simp only [AppearanceComponent.updateMood]
    split_ifs with h <;> simp [h]
  · simp only [AppearanceComponent.updateMood]
    split_ifs with h
    · rfl
    · rw [not_not] at h
      cases app
      simp_all
  · norm_num [computeMood, meetsThresholds, defaultCatThresholds, Stats.get]
  · norm_num [computeMood, meetsThresholds, defaultCatThresholds, Stats.get]

/-- Witness for C4: the two concrete mood evaluations obtained by applying
the theorem, discharging the tier-match hypotheses concretely. -/
theorem C4_mood_priority_witness :
    computeMood ⟨40, 60, 70, 0⟩ defaultCatThresholds = "happy" ∧
    computeMood ⟨80, 20, 10, 0⟩ defaultCatThresholds = "sad" := by
  constructor
  · exact (C4_mood_priority ⟨40, 60, 70, 0⟩ defaultCatThresholds
      ⟨"", "idle", "neutral"⟩).1
      (by norm_num [meetsThresholds, defaultCatThresholds, Stats.get])
  · exact (C4_mood_priority ⟨80, 20, 10, 0⟩ defaultCatThresholds
      ⟨"", "idle", "neutral"⟩).2.2.1
      (by norm_num [meetsThresholds, defaultCatThresholds, Stats.get])
      (by norm_num [meetsThresholds, defaultCatThresholds, Stats.get])

theorem jsGet_jsSet {β : Type _} (m : List (String × β)) (k k' : String)
    (v : β) :
    jsGet (jsSet m k v) k' = if k' = k then some v else jsGet m k' := by
  induction m with
  | nil =>
    simp only [jsSet, jsGet]
    split_ifs <;> subst_vars <;> simp_all
  | cons p ps ih =>
    simp only [jsSet]
    by_cases h : p.1 = k
    · rw [if_pos h]
      simp only [jsGet, ih]
      split_ifs <;> subst_vars <;> simp_all
    · rw [if_neg h]
      simp only [jsGet, ih]
      split_ifs <;> subst_vars <;> simp_all

theorem jsGet_jsDelete_ne {β : Type _} (m : List (String × β))
    {k k' : String} (h : k' ≠ k) :
    jsGet (jsDelete m k) k' = jsGet m k' := by
  induction m with
  | nil => rfl
  | cons p ps ih =>
    simp only [jsDelete]
    by_cases h2 : p.1 = k
    · rw [if_pos h2]
      simp only [jsGet]
      rw [if_neg (by rw [h2]; exact fun hh => h (hh.symm))]
    · rw [if_neg h2]
      simp only [jsGet, ih]

theorem jsDelete_not_has {β : Type _} {m : List (String × β)} {k : String}
    (h : jsHas m k = false) : jsDelete m k = m := by
  induction m with
  | nil => rfl
  | cons p ps ih =>
    simp only [jsHas, jsGet] at h
    by_cases h2 : p.1 = k
    · rw [if_pos h2] at h
      simp at h
    · rw [if_neg h2] at h
      simp only [jsDelete, if_neg h2]
      rw [ih]
      exact h

theorem entGet_entSet {δ : Type} (l : List (Entity δ)) (e : Entity δ)
    (k : String) :
    entGet (entSet l e) k = if k = e.id then some e else entGet l k := by
  induction l with
  | nil =>
    simp only [entSet, entGet]
    split_ifs <;> subst_vars <;> simp_all
  | cons x xs ih =>
    simp only [entSet]
    by_cases h : x.id = e.id
    · rw [if_pos h]
      simp only [entGet, ih]
      split_ifs <;> subst_vars <;> simp_all
    · rw [if_neg h]
      simp only [entGet, ih]
      split_ifs <;> subst_vars <;> simp_all

theorem entGet_id {δ : Type} {l : List (Entity δ)} {id : String}
    {e : Entity δ} (h : entGet l id = some e) : e.id = id := by
  induction l with
  | nil => simp [entGet] at h
  | cons x xs ih =>
    simp only [entGet] at h
    split_ifs at h with h2
    · cases h; exact h2
    · exact ih h

theorem entGet_entDelete_ne {δ : Type} (l : List (Entity δ))
    {id id' : String} (h : id' ≠ id) :
    entGet (entDelete l id) id' = entGet l id' := by
  induction l with
  | nil => rfl
  | cons x xs ih =>
    simp only [entDelete]
    by_cases h2 : x.id = id
    · rw [if_pos h2]
      simp only [entGet]
      rw [if_neg (by rw [h2]; exact fun hh => h (hh.symm))]
    · rw [if_neg h2]
      simp only [entGet, ih]

theorem entGet_eq_none {δ : Type} {l : List (Entity δ)} {id : String}
    (h : id ∉ l.map Entity.id) : entGet l id = none := by
  induction l with
  | nil => rfl
  | cons x xs ih =>
    simp only [List.map_cons, List.mem_cons] at h
    push_neg at h
    simp only [entGet]
    rw [if_neg (fun hh => h.1 hh.symm)]
    exact ih h.2

theorem entGet_entDelete_self {δ : Type} {l : List (Entity δ)}
    (hnd : (l.map Entity.id).Nodup) (id : String) :
    entGet (entDelete l id) id = none := by
  induction l with
  | nil => rfl
  | cons x xs ih =>
    simp only [List.map_cons, List.nodup_cons] at hnd
    simp only [entDelete]
    by_cases h2 : x.id = id
    · rw [if_pos h2]
      exact entGet_eq_none (fun hm => hnd.1 (h2 ▸ hm))
    · rw [if_neg h2]
      simp only [entGet, if_neg h2]
      exact ih hnd.2

theorem mem_jsSetAdd {s : List String} {x y : String} :
    x ∈ jsSetAdd s y ↔ x ∈ s ∨ x = y := by
  unfold jsSetAdd
  split_ifs with h
  · constructor
    · exact Or.inl
    · rintro (hx | rfl)
      · exact hx
      · exact h
  · simp

theorem mem_jsSetDelete {s : List String} {x y : String} :
    x ∈ jsSetDelete s y ↔ x ∈ s ∧ x ≠ y := by
  unfold jsSetDelete
  simp [List.mem_filter]

theorem entSet_self {δ : Type} {l : List (Entity δ)} {e : Entity δ}
    (h : entGet l e.id = some e) : entSet l e = l := by
  induction l with
  | nil => simp [entGet] at h
  | cons x xs ih =>
    simp only [entGet] at h
    simp only [entSet]
    by_cases h2 : x.id = e.id
    · rw [if_pos h2]
      rw [if_pos h2] at h
      cases h
      rfl
    · rw [if_neg h2]
      rw [if_neg h2] at h
      rw [ih h]

theorem entSet_fresh {δ : Type} {l : List (Entity δ)} {e : Entity δ}
    (h : entGet l e.id = none) : entSet l e = l ++ [e] := by
  induction l with
  | nil => rfl
  | cons x xs ih =>
    simp only [entGet] at h
    by_cases h2 : x.id = e.id
    · rw [if_pos h2] at h
      cases h
    · rw [if_neg h2] at h
      simp only [entSet, if_neg h2, ih h]
      rfl

theorem consistent_iff {δ σ : Type} (w : World δ σ) :
    Consistent w ↔ ∀ n id, id ∈ idxIds w n →
      ∃ e, w.getEntity id = some e ∧ e.hasComponent n = true := by
  unfold Consistent idxIds
  constructor
  · intro h n id hm
    cases hg : jsGet w.componentIndex n with
    | none => rw [hg] at hm; simp at hm
    | some ids =>
      rw [hg] at hm
      exact h n ids hg id (by simpa using hm)
  · intro h n ids hg id hm
    exact h n id (by rw [hg]; simpa using hm)

theorem entities_indexEntityComponent {δ σ : Type} (w : World δ σ)
    (id n : String) :
    (w.indexEntityComponent id n).entities = w.entities := rfl

theorem entities_removeEntityFromIndex {δ σ : Type} (w : World δ σ)
    (id n : String) :
    (w.removeEntityFromIndex id n).entities = w.entities := by
  unfold World.removeEntityFromIndex
  cases jsGet w.componentIndex n <;> rfl

theorem idxIds_index {δ σ : Type} (w : World δ σ) (id n n' id' : String) :
    id' ∈ idxIds (w.indexEntityComponent id n) n' ↔
      (id' ∈ idxIds w n' ∨ (n' = n ∧ id' = id)) := by
  unfold World.indexEntityComponent idxIds
  simp only [jsGet_jsSet]
  by_cases h : n' = n
  · subst h
    rw [if_pos rfl]
    simp [mem_jsSetAdd]
  · rw [if_neg h]
    simp [h]

theorem idxIds_rm {δ σ : Type} (w : World δ σ) (id n n' id' : String) :
    id' ∈ idxIds (w.removeEntityFromIndex id n) n' ↔
      (id' ∈ idxIds w n' ∧ ¬(n' = n ∧ id' = id)) := by
  unfold World.removeEntityFromIndex
  cases hg : jsGet w.componentIndex n with
  | none =>
    by_cases h : n' = n
    · subst h
      simp [idxIds, hg]
    · simp [h]
  | some s =>
    simp only [idxIds, jsGet_jsSet]
    by_cases h : n' = n
    · subst h
      rw [if_pos rfl, hg]
      simp [mem_jsSetDelete]
    · rw [if_neg h]
      simp [h]

theorem jsHas_jsSet {β : Type _} (m : List (String × β)) (k k' : String)
    (v : β) :
    jsHas (jsSet m k v) k' = true ↔ (k' = k ∨ jsHas m k' = true) := by
  unfold jsHas
  rw [jsGet_jsSet]
  split_ifs with h <;> simp [h]

theorem hasComponent_addComponent {δ : Type} (e : Entity δ)
    (n n' : String) (d : δ) :
    (e.addComponent n d).hasComponent n' = true ↔
      (n' = n ∨ e.hasComponent n' = true) := by
  unfold Entity.addComponent Entity.hasComponent
  exact jsHas_jsSet e.components n n' d

theorem hasComponent_removeComponent_ne {δ : Type} (e : Entity δ)
    {n n' : String} (h : n' ≠ n) :
    (e.removeComponent n).2.hasComponent n' = e.hasComponent n' := by
  unfold Entity.removeComponent Entity.hasComponent jsHas
  simp only
  rw [jsGet_jsDelete_ne e.components h]

theorem idxIds_fold_index {δ σ : Type} (ps : List (String × δ))
    (id : String) :
    ∀ (w : World δ σ) (n' id' : String),
      (id' ∈ idxIds
          (ps.foldl (fun acc p => acc.indexEntityComponent id p.1) w) n' ↔
        (id' ∈ idxIds w n' ∨ (id' = id ∧ n' ∈ ps.map Prod.fst))) := by
  induction ps with
  | nil => intro w n' id'; simp
  | cons p rest ih =>
    intro w n' id'
    simp only [List.foldl_cons, List.map_cons, List.mem_cons]
    rw [ih, idxIds_index]
    constructor
    · rintro ((h | ⟨h1, h2⟩) | ⟨h1, h2⟩)
      · exact Or.inl h
      · exact Or.inr ⟨h2, Or.inl h1⟩
      · exact Or.inr ⟨h1, Or.inr h2⟩
    · rintro (h | ⟨h1, (h2 | h2)⟩)
      · exact Or.inl (Or.inl h)
      · exact Or.inl (Or.inr ⟨h2, h1⟩)
      · exact Or.inr ⟨h1, h2⟩

theorem entities_fold_index {δ σ : Type} (ps : List (String × δ))
    (id : String) :
    ∀ w : World δ σ,
      (ps.foldl (fun acc p => acc.indexEntityComponent id p.1) w).entities =
        w.entities := by
  induction ps with
  | nil => intro w; rfl
  | cons p rest ih =>
    intro w
    rw [List.foldl_cons, ih]
    rfl

theorem idxIds_fold_rm {δ σ : Type} (ps : List (String × δ))
    (id : String) :
    ∀ (w : World δ σ) (n' id' : String),
      (id' ∈ idxIds
          (ps.foldl (fun acc p => acc.removeEntityFromIndex id p.1) w) n' ↔
        (id' ∈ idxIds w n' ∧ ¬(id' = id ∧ n' ∈ ps.map Prod.fst))) := by
  induction ps with
  | nil => intro w n' id'; simp
  | cons p rest ih =>
    intro w n' id'
    simp only [List.foldl_cons, List.map_cons, List.mem_cons]
    rw [ih, idxIds_rm]
    constructor
    · rintro ⟨⟨h1, h2⟩, h3⟩
      refine ⟨h1, ?_⟩
      rintro ⟨rfl, (hn | hn)⟩
      · exact h2 ⟨hn, rfl⟩
      · exact h3 ⟨rfl, hn⟩
    · rintro ⟨h1, h2⟩
      refine ⟨⟨h1, ?_⟩, ?_⟩
      · rintro ⟨hn, rfl⟩
        exact h2 ⟨rfl, Or.inl hn⟩
      · rintro ⟨rfl, hn⟩
        exact h2 ⟨rfl, Or.inr hn⟩

theorem entities_fold_rm {δ σ : Type} (ps : List (String × δ))
    (id : String) :
    ∀ w : World δ σ,
      (ps.foldl (fun acc p => acc.removeEntityFromIndex id p.1) w).entities =
        w.entities := by
  induction ps with
  | nil => intro w; rfl
  | cons p rest ih =>
    intro w
    rw [List.foldl_cons, ih, entities_removeEntityFromIndex]

theorem getEntitiesWith_sound {δ σ : Type} (w : World δ σ)
    (names : List String) (e : Entity δ)
    (he : e ∈ w.getEntitiesWith names) :
    w.getEntity e.id = some e ∧ ∀ n ∈ names, e.hasComponent n = true := by
  unfold World.getEntitiesWith at he
  cases names with
  | nil => simp at he
  | cons first rest =>
    simp only [List.mem_filterMap] at he
    obtain ⟨id, _, hfe⟩ := he
    cases hg : w.getEntity id with
    | none => rw [hg] at hfe; simp at hfe
    | some e2 =>
      rw [hg] at hfe
      simp only at hfe
      by_cases hall : ((first :: rest).all fun n => e2.hasComponent n) = true
      · rw [if_pos hall] at hfe
        simp only [Option.some.injEq] at hfe
        subst hfe
        have hid : e2.id = id := entGet_id hg
        rw [hid]
        refine ⟨hg, ?_⟩
        intro n hn
        exact List.all_eq_true.mp hall n hn
      · rw [if_neg hall] at hfe
        simp at hfe

theorem jsHas_iff_mem_keys {β : Type _} (m : List (String × β))
    (k : String) : jsHas m k = true ↔ k ∈ m.map Prod.fst := by
  induction m with
  | nil => simp [jsHas, jsGet]
  | cons p ps ih =>
    simp only [jsHas, jsGet, List.map_cons, List.mem_cons]
    by_cases h : p.1 = k
    · simp [h]
    · rw [if_neg h]
      rw [jsHas] at ih
      rw [ih]
      constructor
      · exact Or.inr
      · rintro (hh | hh)
        · exact absurd hh.symm h
        · exact hh

theorem getEntity_setEntity {δ σ : Type} (w : World δ σ) (e : Entity δ)
    (k : String) :
    (w.setEntity e).getEntity k = if k = e.id then some e else w.getEntity k :=
  entGet_entSet w.entities e k

theorem createEntity_componentIndex {δ σ : Type} (w : World δ σ)
    (id? : Option String) :
    ((w.createEntity id?).2).componentIndex = w.componentIndex := by
  cases id? with
  | none => rfl
  | some s =>
    unfold World.createEntity
    split <;> first | rfl | (split <;> rfl)

theorem createEntity_getEntity {δ σ : Type} (w : World δ σ)
    (id? : Option String) (k : String) :
    ((w.createEntity id?).2).getEntity k =
      if k = w.resolvedId id? then some ⟨w.resolvedId id?, []⟩
      else w.getEntity k := by
  have hent : ((w.createEntity id?).2).entities =
      entSet w.entities ⟨w.resolvedId id?, []⟩ := by
    cases id? with
    | none => rfl
    | some s =>
      unfold World.createEntity World.resolvedId
      split <;> first | rfl | (split <;> rfl)
  show entGet ((w.createEntity id?).2).entities k = _
  rw [hent]
  exact entGet_entSet w.entities ⟨w.resolvedId id?, []⟩ k

theorem consistent_createEntity {δ σ : Type} {w : World δ σ}
    (hc : Consistent w) (id? : Option String)
    (hf : w.getEntity (w.resolvedId id?) = none) :
    Consistent (w.createEntity id?).2 := by
  rw [consistent_iff] at hc ⊢
  intro n id hm
  rw [idxIds, createEntity_componentIndex] at hm
  obtain ⟨e0, hg, hh⟩ := hc n id hm
  refine ⟨e0, ?_, hh⟩
  rw [createEntity_getEntity, if_neg ?_]
  · exact hg
  · intro heq
    rw [heq, hf] at hg
    cases hg

theorem addEntity_componentIndex_mem {δ σ : Type} (w : World δ σ)
    (e : Entity δ) (n id : String) :
    id ∈ idxIds (w.addEntity e) n ↔
      (id ∈ idxIds w n ∨ (id = e.id ∧ n ∈ e.components.map Prod.fst)) := by
  unfold World.addEntity
  exact idxIds_fold_index e.components e.id (w.setEntity e) n id

theorem addEntity_getEntity {δ σ : Type} (w : World δ σ) (e : Entity δ)
    (k : String) :
    (w.addEntity e).getEntity k = if k = e.id then some e else w.getEntity k := by
  show entGet (w.addEntity e).entities k = _
  unfold World.addEntity
  rw [entities_fold_index]
  exact entGet_entSet w.entities e k

theorem consistent_addEntity {δ σ : Type} {w : World δ σ}
    (hc : Consistent w) {e : Entity δ}
    (hf : w.getEntity e.id = none) :
    Consistent (w.addEntity e) := by
  rw [consistent_iff] at hc ⊢
  intro n id hm
  rw [addEntity_componentIndex_mem] at hm
  cases hm with
  | inl hin =>
    obtain ⟨e0, hg, hh⟩ := hc n id hin
    refine ⟨e0, ?_, hh⟩
    rw [addEntity_getEntity, if_neg ?_]
    · exact hg
    · intro heq
      rw [heq, hf] at hg
      cases hg
  | inr hin =>
    refine ⟨e, ?_, ?_⟩
    · rw [addEntity_getEntity, if_pos hin.1]
    · rw [Entity.hasComponent, jsHas_iff_mem_keys]
      exact hin.2

theorem consistent_addComponent {δ σ : Type} {w w2 : World δ σ}
    (hc : Consistent w) {id n : String} {d : δ}
    (hadd : w.addComponent id n d = some w2) : Consistent w2 := by
  unfold World.addComponent at hadd
  cases hg : w.getEntity id with
  | none => rw [hg] at hadd; cases hadd
  | some e =>
    rw [hg] at hadd
    simp only [Option.some.injEq] at hadd
    subst hadd
    have heid : e.id = id := entGet_id hg
    rw [consistent_iff] at hc ⊢
    intro n' id' hm
    rw [idxIds_index] at hm
    have hgetset : ∀ k, ((w.setEntity (e.addComponent n d)).indexEntityComponent
        id n).getEntity k =
        if k = id then some (e.addComponent n d) else w.getEntity k := by
      intro k
      have h1 : ((w.setEntity (e.addComponent n d)).indexEntityComponent
          id n).getEntity k = (w.setEntity (e.addComponent n d)).getEntity k := rfl
      rw [h1, getEntity_setEntity]
      have h2 : (e.addComponent n d).id = e.id := rfl
      rw [h2, heid]
    have hsetidx : ∀ m, idxIds (w.setEntity (e.addComponent n d)) m =
        idxIds w m := fun _ => rfl
    cases hm with
    | inl hin =>
      rw [hsetidx] at hin
      obtain ⟨e0, hg0, hh0⟩ := hc n' id' hin
      by_cases hid : id' = id
      · have he0 : e0 = e := by
          rw [hid] at hg0
          rw [hg0] at hg
          exact Option.some.inj hg
        subst he0
        refine ⟨e0.addComponent n d, ?_, ?_⟩
        · rw [hgetset, if_pos hid]
        · rw [hasComponent_addComponent]
          exact Or.inr hh0
      · refine ⟨e0, ?_, hh0⟩
        rw [hgetset, if_neg hid]
        exact hg0
    | inr hin =>
      obtain ⟨hn', hid'⟩ := hin
      refine ⟨e.addComponent n d, ?_, ?_⟩
      · rw [hgetset, if_pos hid']
      · rw [hasComponent_addComponent]
        exact Or.inl hn'

theorem consistent_removeComponent {δ σ : Type} {w : World δ σ}
    (hc : Consistent w) (id n : String) :
    Consistent (w.removeComponent id n).2 := by
  unfold World.removeComponent
  cases hg : w.getEntity id with
  | none => exact hc
  | some e =>
    simp only
    have heid : e.id = id := entGet_id hg
    by_cases hhad : e.hasComponent n = true
    · have hr1 : (e.removeComponent n).1 = true := hhad
      rw [hr1, if_pos rfl]
      rw [consistent_iff] at hc ⊢
      intro n' id' hm
      rw [idxIds_rm] at hm
      obtain ⟨hin, hne⟩ := hm
      have hsetidx : ∀ m, idxIds (w.setEntity (e.removeComponent n).2) m =
          idxIds w m := fun _ => rfl
      rw [hsetidx] at hin
      obtain ⟨e0, hg0, hh0⟩ := hc n' id' hin
      have hgetset : ∀ k,
          ((w.setEntity (e.removeComponent n).2).removeEntityFromIndex
            id n).getEntity k =
          if k = id then some (e.removeComponent n).2 else w.getEntity k := by
        intro k
        have h1 : ((w.setEntity (e.removeComponent n).2).removeEntityFromIndex
            id n).getEntity k =
            (w.setEntity (e.removeComponent n).2).getEntity k := by
          show entGet _ k = entGet _ k
          rw [entities_removeEntityFromIndex]
        rw [h1, getEntity_setEntity]
        have h2 : (e.removeComponent n).2.id = e.id := rfl
        rw [h2, heid]
      by_cases hid : id' = id
      · have he0 : e0 = e := by
          rw [hid] at hg0
          rw [hg0] at hg
          exact Option.some.inj hg
        subst he0
        have hne' : n' ≠ n := by
          intro hh
          exact hne ⟨hh, hid⟩
        refine ⟨(e0.removeComponent n).2, ?_, ?_⟩
        · rw [hgetset, if_pos hid]
        · rw [hasComponent_removeComponent_ne e0 hne']
          exact hh0
      · refine ⟨e0, ?_, hh0⟩
        rw [hgetset, if_neg hid]
        exact hg0
    · have hhadf : e.hasComponent n = false := by
        cases hb : e.hasComponent n with
        | false => rfl
        | true => exact absurd hb hhad
      have hr1 : (e.removeComponent n).1 = false := hhadf
      rw [hr1]
      simp only [Bool.false_eq_true, if_false]
      have hr2 : (e.removeComponent n).2 = e := by
        unfold Entity.removeComponent
        simp only
        rw [jsDelete_not_has hhadf]
      rw [hr2]
      have hw : w.setEntity e = w := by
        unfold World.setEntity
        have hself : entSet w.entities e = w.entities := by
          apply entSet_self
          rw [heid]
          exact hg
        rw [hself]
      rw [hw]
      exact hc

theorem consistent_removeEntity {δ σ : Type} {w : World δ σ}
    (hc : Consistent w) (id : String) :
    Consistent (w.removeEntity id).2 := by
  unfold World.removeEntity
  cases hg : w.getEntity id with
  | none => exact hc
  | some e =>
    simp only
    rw [consistent_iff] at hc ⊢
    intro n' id' hm
    have hm2 : id' ∈ idxIds
        (e.components.foldl (fun acc p => acc.removeEntityFromIndex id p.1) w)
        n' := hm
    rw [idxIds_fold_rm] at hm2
    obtain ⟨hin, hne⟩ := hm2
    obtain ⟨e0, hg0, hh0⟩ := hc n' id' hin
    by_cases hid : id' = id
    · exfalso
      have he0 : e0 = e := by
        rw [hid] at hg0
        rw [hg0] at hg
        exact Option.some.inj hg
      subst he0
      apply hne
      refine ⟨hid, ?_⟩
      rw [← jsHas_iff_mem_keys]
      exact hh0
    · refine ⟨e0, ?_, hh0⟩
      show entGet (entDelete _ id) id' = some e0
      rw [entGet_entDelete_ne _ hid, entities_fold_rm]
      exact hg0

theorem consistent_apply {δ σ : Type} {w : World δ σ} {op : WOp δ}
    (hc : Consistent w) (hf : op.fresh w = true) :
    Consistent (op.apply w) := by
  cases op with
  | create id? =>
    refine consistent_createEntity hc id? ?_
    simpa [WOp.fresh, Option.isNone_iff_eq_none] using hf
  | addEnt e =>
    refine consistent_addEntity hc ?_
    simpa [WOp.fresh, Option.isNone_iff_eq_none] using hf
  | addComp id n d =>
    simp only [WOp.apply]
    cases ha : w.addComponent id n d with
    | none => exact hc
    | some w2 => exact consistent_addComponent hc ha
  | removeComp id n => exact consistent_removeComponent hc id n
  | removeEnt id => exact consistent_removeEntity hc id

theorem consistent_applyWOps {δ σ : Type} {w : World δ σ}
    {ops : List (WOp δ)} (hc : Consistent w)
    (hf : freshRun w ops = true) : Consistent (applyWOps w ops) := by
  induction ops generalizing w with
  | nil => exact hc
  | cons op rest ih =>
    rw [freshRun, Bool.and_eq_true] at hf
    exact ih (consistent_apply hc hf.1) hf.2

theorem consistent_worldNew (δ σ : Type) : Consistent (World.new δ σ) := by
  rw [consistent_iff]
  intro n id hm
  simp [idxIds, World.new, jsGet] at hm

/-- C2 counterexample: the invariant part of the claim fails when addEntity
re-registers an id that is already present.  From an empty world: create
entity e1, add component stats (indexing e1 under stats), then addEntity a
fresh entity object with the same id e1 and no components.  The entity map
now holds the component-less e1, yet the stats index set still contains e1,
so an id is present in a component-index set whose entity does not have
that component. -/
theorem C2_index_consistency_counterexample :
    Consistent (World.new ℕ ℕ) ∧
    ¬ Consistent (applyWOps (World.new ℕ ℕ)
      [WOp.create (some "e1"), WOp.addComp "e1" "stats" 0,
       WOp.addEnt ⟨"e1", []⟩]) := by
  constructor
  · exact consistent_worldNew ℕ ℕ
  · intro hcl
    obtain ⟨e, hg, hh⟩ := hcl "stats" ["e1"] (by decide) "e1" (by decide)
    rw [show (applyWOps (World.new ℕ ℕ)
      [WOp.create (some "e1"), WOp.addComp "e1" "stats" 0,
       WOp.addEnt ⟨"e1", []⟩]).getEntity "e1" =
        some ⟨"e1", []⟩ from by decide] at hg
    cases hg
    exact absurd hh (by decide)

/-- C2 (amended).  Unconditionally, getEntitiesWith only returns entities
that are present in the entity map and have every requested component (it
re-validates candidates against the entity map), and after removeEntity(id)
on a world whose entity ids are distinct (the JS Map representation
invariant) getEntitiesWith never returns the removed id.  The general
index-consistency invariant is preserved by every
createEntity/addEntity/addComponent/removeComponent/removeEntity sequence
PROVIDED createEntity and addEntity are never applied to an id already in
the entity map; the freshness proviso is forced by the counterexample
(re-adding an existing id leaves stale index entries for the replaced
entity's components). -/
theorem C2_index_consistency :
    (∀ (δ σ : Type) (w : World δ σ) (names : List String) (e : Entity δ),
        e ∈ w.getEntitiesWith names →
        w.getEntity e.id = some e ∧ ∀ n ∈ names, e.hasComponent n = true)
  ∧ (∀ (δ σ : Type) (w : World δ σ) (id : String) (names : List String)
        (e : Entity δ),
        (w.entities.map Entity.id).Nodup →
        e ∈ ((w.removeEntity id).2).getEntitiesWith names →
        e.id ≠ id)
  ∧ (∀ (δ σ : Type) (w : World δ σ) (ops : List (WOp δ)),
        Consistent w → freshRun w ops = true →
        Consistent (applyWOps w ops)) := by
  refine ⟨?_, ?_, ?_⟩
  · intro δ σ w names e he
    exact getEntitiesWith_sound w names e he
  · intro δ σ w id names e hnd he heq
    have hs := getEntitiesWith_sound _ names e he
    cases hg : w.getEntity id with
    | none =>
      have hw : (w.removeEntity id).2 = w := by
        unfold World.removeEntity
        rw [hg]
      rw [hw, heq, hg] at hs
      cases hs.1
    | some e2 =>
      have hnone : ((w.removeEntity id).2).getEntity id = none := by
        unfold World.removeEntity
        rw [hg]
        simp only
        show entGet (entDelete _ id) id = none
        rw [entities_fold_rm]
        exact entGet_entDelete_self hnd id
      rw [heq, hnone] at hs
      cases hs.1
  · intro δ σ w ops hc hf
    exact consistent_applyWOps hc hf

/-- Witness for C2: a concrete create/add/remove run from the empty world,
with the invariant instantiated through the theorem. -/
theorem C2_index_consistency_witness :
    Consistent (applyWOps (World.new ℕ ℕ)
      [WOp.create (some "pet"), WOp.addComp "pet" "stats" 7,
       WOp.addComp "pet" "position" 9, WOp.removeComp "pet" "stats",
       WOp.removeEnt "pet"]) :=
  C2_index_consistency.2.2 ℕ ℕ (World.new ℕ ℕ) _
    (consistent_worldNew ℕ ℕ) (by decide)

/-- C6: updateComponent returns the none sentinel when the entity is
unknown or the component is not already present, and in those cases
produces no updated world at all (so nothing is created and entity map,
component index and component data are untouched); when the component is
present it overwrites the data (without touching the component index or
any other entity) and the componentUpdated payload carries the old and the
new data. -/
theorem C6_updateComponent (δ σ : Type) (w : World δ σ)
    (id n : String) (d : δ) :
    (w.getEntity id = none → w.updateComponent id n d = none)
  ∧ (∀ e, w.getEntity id = some e → e.hasComponent n = false →
      w.updateComponent id n d = none)
  ∧ (∀ e old, w.getEntity id = some e → e.getComponent n = some old →
      w.updateComponent id n d =
        some (w.setEntity (e.addComponent n d), ⟨some old, d⟩) ∧
      (w.setEntity (e.addComponent n d)).componentIndex = w.componentIndex ∧
      (w.setEntity (e.addComponent n d)).getEntity id =
        some (e.addComponent n d) ∧
      (e.addComponent n d).getComponent n = some d ∧
      (∀ k, k ≠ id → (w.setEntity (e.addComponent n d)).getEntity k =
        w.getEntity k)) := by
  refine ⟨?_, ?_, ?_⟩
  · intro h
    unfold World.updateComponent
    rw [h]
  · intro e hg hfalse
    unfold World.updateComponent
    rw [hg]
    simp [hfalse]
  · intro e old hg hold
    have heid : e.id = id := entGet_id hg
    have hhas : e.hasComponent n = true := by
      unfold Entity.hasComponent jsHas
      unfold Entity.getComponent at hold
      rw [hold]
      rfl
    refine ⟨?_, rfl, ?_, ?_, ?_⟩
    · unfold World.updateComponent
      rw [hg]
      simp only [hhas, if_true]
      unfold Entity.getComponent at hold
      rw [show e.getComponent n = some old from hold]
    · rw [getEntity_setEntity]
      have h2 : (e.addComponent n d).id = e.id := rfl
      rw [h2, heid, if_pos rfl]
    · unfold Entity.getComponent Entity.addComponent
      simp only
      rw [jsGet_jsSet, if_pos rfl]
    · intro k hk
      rw [getEntity_setEntity]
      have h2 : (e.addComponent n d).id = e.id := rfl
      rw [h2, heid, if_neg hk]

/-- Witness for C6: updating the stats component of a concrete one-entity
world overwrites the data and reports old data 5 and new data 9. -/
theorem C6_updateComponent_witness :
    ((World.new ℕ ℕ).addEntity ⟨"pet", [("stats", 5)]⟩).updateComponent
        "pet" "stats" 9 =
      some (((World.new ℕ ℕ).addEntity ⟨"pet", [("stats", 5)]⟩).setEntity
        ((⟨"pet", [("stats", 5)]⟩ : Entity ℕ).addComponent "stats" 9),
        ⟨some 5, 9⟩) ∧
    ((World.new ℕ ℕ).addEntity ⟨"pet", [("stats", 5)]⟩).updateComponent
        "pet" "hunger" 9 = none :=
  ⟨((C6_updateComponent ℕ ℕ _ "pet" "stats" 9).2.2
      ⟨"pet", [("stats", 5)]⟩ 5 (by decide) (by decide)).1,
   (C6_updateComponent ℕ ℕ _ "pet" "hunger" 9).2.1
      ⟨"pet", [("stats", 5)]⟩ (by decide) (by decide)⟩

/-- C10: registerComponentType stores the first schema registered under a
name and leaves it unchanged on any later registration under the same name
(the duplicate is ignored with a warning; the call itself is an ordinary
total return), whereas registerSystem always stores, so a second
registerSystem under the same name replaces the first system. -/
theorem registerComponentType_present {δ σ : Type} (w : World δ σ)
    {n : String} {s : δ} (h : jsGet w.componentTypes n = some s) (s2 : δ) :
    w.registerComponentType n s2 = w := by
  unfold World.registerComponentType
  rw [show jsHas w.componentTypes n = true from by unfold jsHas; rw [h]; rfl]
  simp

theorem C10_first_registration_wins (δ σ : Type) (w : World δ σ)
    (n : String) (s1 s2 : δ) (sys1 sys2 : σ) :
    (jsGet w.componentTypes n = none →
      jsGet ((w.registerComponentType n s1).componentTypes) n = some s1 ∧
      (w.registerComponentType n s1).registerComponentType n s2 =
        w.registerComponentType n s1)
  ∧ (∀ s, jsGet w.componentTypes n = some s →
      w.registerComponentType n s2 = w)
  ∧ jsGet (((w.registerSystem n sys1).registerSystem n sys2).systems) n =
      some sys2 := by
  refine ⟨?_, ?_, ?_⟩
  · intro h
    have hhas : jsHas w.componentTypes n = false := by
      unfold jsHas
      rw [h]
      rfl
    constructor
    · unfold World.registerComponentType
      rw [hhas]
      simp only [Bool.false_eq_true, if_false]
      rw [jsGet_jsSet, if_pos rfl]
    · have hg1 : jsGet ((w.registerComponentType n s1).componentTypes) n =
          some s1 := by
        unfold World.registerComponentType
        rw [hhas]
        simp only [Bool.false_eq_true, if_false]
        rw [jsGet_jsSet, if_pos rfl]
      exact registerComponentType_present _ hg1 s2
  · intro s h
    exact registerComponentType_present w h s2
  · unfold World.registerSystem
    simp only
    rw [jsGet_jsSet, if_pos rfl]

/-- Witness for C10: concrete double registrations from the empty world.
The component-type schema keeps its first value 1 while the system registry
holds the second system 2. -/
theorem C10_first_registration_wins_witness :
    jsGet ((((World.new ℕ ℕ).registerComponentType "stats" 1
        ).registerComponentType "stats" 2).componentTypes) "stats" =
      some 1 ∧
    jsGet ((((World.new ℕ ℕ).registerSystem "movement" 1
        ).registerSystem "movement" 2).systems) "movement" = some 2 := by
  constructor
  · have h := (C10_first_registration_wins ℕ ℕ (World.new ℕ ℕ)
      "stats" 1 2 1 2).1 (by decide)
    rw [h.2, h.1]
  · exact (C10_first_registration_wins ℕ ℕ (World.new ℕ ℕ)
      "stats" 1 2 1 2).2.2

theorem jsSet_fresh {β : Type _} {m : List (String × β)} {k : String}
    (h : jsHas m k = false) (v : β) : jsSet m k v = m ++ [(k, v)] := by
  induction m with
  | nil => rfl
  | cons p ps ih =>
    simp only [jsHas, jsGet] at h
    by_cases h2 : p.1 = k
    · rw [if_pos h2] at h
      simp at h
    · rw [if_neg h2] at h
      simp only [jsSet, if_neg h2]
      rw [ih h]
      rfl

theorem foldl_jsSet_id {β : Type _} :
    ∀ (l acc : List (String × β)),
      (acc.map Prod.fst ++ l.map Prod.fst).Nodup →
      l.foldl (fun a p => jsSet a p.1 p.2) acc = acc ++ l := by
  intro l
  induction l with
  | nil => intro acc _; simp
  | cons p rest ih =>
    intro acc h
    have hdisj := List.disjoint_of_nodup_append h
    have hfst : p.1 ∉ acc.map Prod.fst := by
      intro hmem
      exact hdisj hmem (by simp)
    have hhas : jsHas acc p.1 = false := by
      cases hb : jsHas acc p.1 with
      | false => rfl
      | true => exact absurd ((jsHas_iff_mem_keys acc p.1).mp hb) hfst
    simp only [List.foldl_cons]
    rw [jsSet_fresh hhas p.2]
    rw [ih (acc ++ [p]) ?_]
    · simp
    · simp only [List.map_append, List.map_cons, List.map_nil] at h ⊢
      simpa [List.append_assoc] using h

theorem entity_roundtrip {δ : Type} (e : Entity δ)
    (hnd : (e.components.map Prod.fst).Nodup) :
    Entity.deserialize (Entity.serialize e) = e := by
  have h1 : e.components.foldl (fun acc p => jsSet acc p.1 p.2) [] =
      e.components := by
    have := foldl_jsSet_id e.components [] (by simpa using hnd)
    simpa using this
  have h2 : ∀ (l : List (String × δ)) (acc : List (String × δ)) (id : String),
      l.foldl (fun ent p => ent.addComponent p.1 p.2)
        (⟨id, acc⟩ : Entity δ) =
      ⟨id, l.foldl (fun a p => jsSet a p.1 p.2) acc⟩ := by
    intro l
    induction l with
    | nil => intro acc id; rfl
    | cons p rest ih =>
      intro acc id
      simp only [List.foldl_cons]
      exact ih (jsSet acc p.1 p.2) id
  show Entity.deserialize ⟨e.id, e.getAllComponents⟩ = e
  unfold Entity.deserialize Entity.getAllComponents
  simp only
  rw [h1, h2, h1]

theorem addEntity_entities_fresh {δ σ : Type} {w : World δ σ}
    {e : Entity δ} (h : w.getEntity e.id = none) :
    (w.addEntity e).entities = w.entities ++ [e] := by
  unfold World.addEntity
  rw [entities_fold_index]
  exact entSet_fresh h

theorem nextEntityId_fold_index {δ σ : Type} (ps : List (String × δ))
    (id : String) :
    ∀ w : World δ σ,
      (ps.foldl (fun acc p => acc.indexEntityComponent id p.1) w).nextEntityId =
        w.nextEntityId := by
  induction ps with
  | nil => intro w; rfl
  | cons p rest ih =>
    intro w
    rw [List.foldl_cons, ih]
    rfl

theorem nextEntityId_addEntity {δ σ : Type} (w : World δ σ)
    (e : Entity δ) : (w.addEntity e).nextEntityId = w.nextEntityId := by
  unfold World.addEntity
  rw [nextEntityId_fold_index]
  rfl

theorem deser_fold {δ σ : Type} :
    ∀ (es : List (Entity δ)) (base : World δ σ),
      (∀ e ∈ es, (e.components.map Prod.fst).Nodup) →
      ((base.entities.map Entity.id ++ es.map Entity.id).Nodup) →
      Consistent base →
      ((es.map Entity.serialize).foldl
          (fun acc ed => acc.addEntity (Entity.deserialize ed)) base).entities =
        base.entities ++ es ∧
      Consistent ((es.map Entity.serialize).foldl
          (fun acc ed => acc.addEntity (Entity.deserialize ed)) base) ∧
      ((es.map Entity.serialize).foldl
          (fun acc ed => acc.addEntity (Entity.deserialize ed)) base).nextEntityId =
        base.nextEntityId := by
  intro es
  induction es with
  | nil =>
    intro base _ _ hc
    exact ⟨by simp, hc, rfl⟩
  | cons e rest ih =>
    intro base hcomp hnd hc
    have hrt : Entity.deserialize (Entity.serialize e) = e :=
      entity_roundtrip e (hcomp e (by simp))
    have hdisj := List.disjoint_of_nodup_append hnd
    have hfresh : base.getEntity e.id = none := by
      apply entGet_eq_none
      intro hmem
      exact hdisj hmem (by simp)
    simp only [List.map_cons, List.foldl_cons, hrt]
    have hbase' : (base.addEntity e).entities = base.entities ++ [e] :=
      addEntity_entities_fresh hfresh
    have hnd' : ((base.addEntity e).entities.map Entity.id ++
        rest.map Entity.id).Nodup := by
      rw [hbase']
      simp only [List.map_append, List.map_cons, List.map_nil] at hnd ⊢
      simpa [List.append_assoc] using hnd
    have hc' : Consistent (base.addEntity e) := consistent_addEntity hc hfresh
    obtain ⟨ha, hb, hcnt⟩ := ih (base.addEntity e)
      (fun x hx => hcomp x (by simp [hx])) hnd' hc'
    refine ⟨?_, hb, ?_⟩
    · rw [ha, hbase']
      simp
    · rw [hcnt, nextEntityId_addEntity]

theorem consistent_of_empty_index {δ σ : Type} {w : World δ σ}
    (h : w.componentIndex = []) : Consistent w := by
  rw [consistent_iff]
  intro n id hm
  simp [idxIds, h, jsGet] at hm

/-- C5: serialize → deserialize round trip.  Restoring a snapshot of w
into ANY world wt reproduces exactly w's entity list (same ids, same
component names and data) regardless of wt's previous entities and
indices, and rebuilds a consistent component index; restoring into w
itself preserves the next-entity-id counter for every counter value, and
restoring into an arbitrary world preserves it whenever it is nonzero
(its value in every reachable world; deserialize skips a zero counter as
falsy).  WFWorld is the JS Map representation invariant (distinct keys). -/
theorem C5_serialize_roundtrip (δ σ : Type) (w wt : World δ σ)
    (hwf : WFWorld w) :
    ((wt.deserialize w.serialize).entities = w.entities)
  ∧ ((w.deserialize w.serialize).nextEntityId = w.nextEntityId)
  ∧ (w.nextEntityId ≠ 0 →
      (wt.deserialize w.serialize).nextEntityId = w.nextEntityId)
  ∧ Consistent (wt.deserialize w.serialize) := by
  have hmapsnd : ∀ (v : World δ σ),
      ((v.serialize).entities.map Prod.snd) = v.entities.map Entity.serialize := by
    intro v
    unfold World.serialize
    simp [List.map_map, Function.comp]
  have hfold : ∀ (vt : World δ σ),
      let w0 : World δ σ := { vt with entities := [], componentIndex := [] }
      ((w.entities.map Entity.serialize).foldl
          (fun acc ed => acc.addEntity (Entity.deserialize ed)) w0).entities =
        w.entities ∧
      Consistent ((w.entities.map Entity.serialize).foldl
          (fun acc ed => acc.addEntity (Entity.deserialize ed)) w0) ∧
      ((w.entities.map Entity.serialize).foldl
          (fun acc ed => acc.addEntity (Entity.deserialize ed)) w0).nextEntityId =
        vt.nextEntityId := by
    intro vt
    obtain ⟨ha, hb, hc⟩ := deser_fold w.entities
      { vt with entities := [], componentIndex := [] }
      hwf.2 (by simpa using hwf.1) (consistent_of_empty_index rfl)
    exact ⟨by simpa using ha, hb, hc⟩
  refine ⟨?_, ?_, ?_, ?_⟩
  · simp only [World.deserialize]
    rw [hmapsnd w]
    split
    · exact (hfold wt).1
    · exact (hfold wt).1
  · simp only [World.deserialize]
    rw [hmapsnd w]
    split
    · rfl
    · exact (hfold w).2.2
  · intro h0
    simp only [World.deserialize]
    rw [hmapsnd w]
    rw [if_pos (show w.serialize.nextEntityId ≠ 0 from h0)]
    rfl
  · simp only [World.deserialize]
    rw [hmapsnd w]
    split
    · exact (hfold wt).2.1
    · exact (hfold wt).2.1

/-- Witness for C5: restoring the snapshot of a concrete two-entity world
into a target world with leftover entities reproduces exactly the
snapshot's entities and counter. -/
theorem C5_serialize_roundtrip_witness :
    ((c5TargetWorld.deserialize c5WitnessWorld.serialize).entities =
      c5WitnessWorld.entities) ∧
    ((c5TargetWorld.deserialize c5WitnessWorld.serialize).nextEntityId =
      c5WitnessWorld.nextEntityId) :=
  ⟨(C5_serialize_roundtrip ℕ ℕ c5WitnessWorld c5TargetWorld (by decide)).1,
   (C5_serialize_roundtrip ℕ ℕ c5WitnessWorld c5TargetWorld
      (by decide)).2.2.1 (by decide)⟩

/-- C7: loading [a, b, c] from a fresh loader where b's initialize throws
(and a, c initialize normally) still loads a and c: the loaded-id list is
exactly [a, c], the loader's plugin table contains a and c and excludes b,
and the exception is absorbed inside loadPlugin (modelled by its total
false return), never aborting the sequence. -/
theorem C7_plugin_isolation (env : String → PluginModule) (a b c : String)
    (ha : env a = ⟨false, true, false⟩)
    (hb : env b = ⟨false, true, true⟩)
    (hc : env c = ⟨false, true, false⟩) :
    (loadPlugins env [] [a, b, c]).1 = [a, c] ∧
    a ∈ (loadPlugins env [] [a, b, c]).2 ∧
    c ∈ (loadPlugins env [] [a, b, c]).2 ∧
    b ∉ (loadPlugins env [] [a, b, c]).2 := by
  have hab : a ≠ b := by
    intro h
    rw [h, hb] at ha
    simp at ha
  have hcb : c ≠ b := by
    intro h
    rw [h, hb] at hc
    simp at hc
  have hba : b ≠ a := hab.symm
  have hbc : b ≠ c := hcb.symm
  by_cases hca : c = a
  · subst hca
    simp [loadPlugins, loadPlugin, ha, hb, hba, hbc]
  · simp [loadPlugins, loadPlugin, ha, hb, hc, hba, hbc, hca, hab, hcb]

/-- Witness for C7 at the concrete plugin list [a, b, c]. -/
theorem C7_plugin_isolation_witness :
    (loadPlugins c7Env [] ["a", "b", "c"]).1 = ["a", "c"] ∧
    "a" ∈ (loadPlugins c7Env [] ["a", "b", "c"]).2 ∧
    "c" ∈ (loadPlugins c7Env [] ["a", "b", "c"]).2 ∧
    "b" ∉ (loadPlugins c7Env [] ["a", "b", "c"]).2 :=
  C7_plugin_isolation c7Env "a" "b" "c" (by decide) (by decide) (by decide)

theorem wpSetWalkingStatus_walkState (p : PetCtl) :
    (wpSetWalkingStatus p).walkState = p.walkState := by
  unfold wpSetWalkingStatus
  split <;> rfl

theorem wpSetIdleStatus_walkState (p : PetCtl) :
    (wpSetIdleStatus p).walkState = p.walkState := by
  unfold wpSetIdleStatus
  split <;> rfl

theorem wpSetIdleStatus_energy (p : PetCtl) :
    (wpSetIdleStatus p).energy = p.energy := by
  unfold wpSetIdleStatus
  split <;> rfl

theorem wpStopWalking_energy (st : MainCtl) :
    ((wpStopWalking st).2).pet.energy = st.pet.energy := by
  unfold wpStopWalking
  cases st.pet.walkState with
  | none => rfl
  | some ws =>
    simp only
    rw [wpSetIdleStatus_energy]

theorem wpStopWalking_not_walking (st : MainCtl) :
    ¬ (((wpStopWalking st).2).pet.walkState.map MWalkState.isWalking =
      some true ∧ st.pet.walkState.isSome = true) := by
  unfold wpStopWalking
  cases hws : st.pet.walkState with
  | none => simp [hws]
  | some ws =>
    simp only
    rw [wpSetIdleStatus_walkState]
    simp

/-- C8 counterexample: the core MovementSystem.startWalking imposes no
energy precondition.  A fully equipped entity with stats and energy 0
(below the plugin threshold 10) still starts walking through the
MovementSystem path: the call returns true, the walk target is stored and
the status becomes walking. -/
theorem C8_energy_gate_counterexample :
    (⟨none, ⟨true, true, "idle", true, 0, none, none⟩⟩ :
        MainCtl).pet.hasStats = true ∧
    (⟨none, ⟨true, true, "idle", true, 0, none, none⟩⟩ :
        MainCtl).pet.energy < 10 ∧
    (msStartWalking ⟨none, ⟨true, true, "idle", true, 0, none, none⟩⟩
        100 100).1 = true ∧
    (msStartWalking ⟨none, ⟨true, true, "idle", true, 0, none, none⟩⟩
        100 100).2.msTarget = some (100, 100) ∧
    (msStartWalking ⟨none, ⟨true, true, "idle", true, 0, none, none⟩⟩
        100 100).2.pet.status = "walking" := by
  norm_num [msStartWalking]

/-- C8 (amended): the energy-threshold precondition is enforced by the
walking plugin's startWalking only: with stats and energy below 10 it
returns false and leaves the state unchanged, and with energy at least 10
it starts the walk.  The core MovementSystem.startWalking starts a walk
for any entity with position and appearance regardless of energy (the
counterexample).  An ongoing plugin walk deducts the fixed cost 1 every
5000 ms interval (clamped at 0) and stops walking automatically when the
energy reaches 0. -/
theorem C8_energy_gate (st : MainCtl) (tx ty now last : ℚ) :
    (st.pet.hasStats = true → st.pet.energy < 10 →
      wpStartWalking st tx ty = (false, st))
  ∧ (st.pet.hasStats = true → 10 ≤ st.pet.energy →
      (wpStartWalking st tx ty).1 = true ∧
      (wpStartWalking st tx ty).2.pet.walkState.map MWalkState.isWalking =
        some true ∧
      (wpStartWalking st tx ty).2.pet.walkState.map MWalkState.target =
        some (some (tx, ty)))
  ∧ (5000 ≤ now - last → st.pet.hasStats = true →
      (wpChargeEnergy st now last).1.pet.energy =
        jsMax 0 (st.pet.energy - 1) ∧
      (wpChargeEnergy st now last).2 = now ∧
      (st.pet.energy ≤ 1 →
        ¬ ((wpChargeEnergy st now last).1.pet.walkState.map
            MWalkState.isWalking = some true ∧
          st.pet.walkState.isSome = true)))
  ∧ (st.pet.hasPosition = true → st.pet.hasAppearance = true →
      (msStartWalking st tx ty).1 = true ∧
      (msStartWalking st tx ty).2.msTarget = some (tx, ty)) := by
  refine ⟨?_, ?_, ?_, ?_⟩
  · intro h1 h2
    unfold wpStartWalking
    rw [if_pos ⟨h1, h2⟩]
  · intro h1 h2
    unfold wpStartWalking
    rw [if_neg (fun hcon => absurd hcon.2 (not_lt.mpr h2))]
    refine ⟨rfl, ?_, ?_⟩ <;>
      · simp only [wpSetWalkingStatus_walkState]
        cases hws : st.pet.walkState <;> simp [wpSetWalk, hws]
  · intro hnow hstats
    unfold wpChargeEnergy
    rw [if_pos hnow, if_pos hstats]
    set e1 : ℚ := jsMax 0 (st.pet.energy - 1) with he1
    refine ⟨?_, rfl, ?_⟩
    · unfold wpChargeStep
      split
      · rw [wpStopWalking_energy]
      · rfl
    · intro hle hcon
      have he10 : e1 ≤ 0 := by
        rw [he1, jsMax_eq]
        exact max_le le_rfl (by linarith)
      unfold wpChargeStep at hcon
      rw [if_pos he10] at hcon
      exact wpStopWalking_not_walking _ ⟨hcon.1, hcon.2⟩
  · intro h1 h2
    unfold msStartWalking
    rw [if_pos ⟨h1, h2⟩]
    exact ⟨rfl, rfl⟩

/-- Witness for C8: with energy 5 (below 10) the plugin refuses to start a
walk; a walking entity with energy 1 charged after 5500 ms ends at energy
0 and is no longer walking. -/
theorem C8_energy_gate_witness :
    wpStartWalking ⟨none, ⟨true, true, "idle", true, 5, none, none⟩⟩
        100 100 =
      (false, ⟨none, ⟨true, true, "idle", true, 5, none, none⟩⟩) ∧
    (wpChargeEnergy ⟨none, ⟨true, true, "walking", true, 1,
        some ⟨true, some (100, 100), none⟩, none⟩⟩ 6000 500).1.pet.energy =
      jsMax 0
        ((⟨none, ⟨true, true, "walking", true, 1,
          some ⟨true, some (100, 100), none⟩, none⟩⟩ :
            MainCtl).pet.energy - 1) ∧
    ¬ ((wpChargeEnergy ⟨none, ⟨true, true, "walking", true, 1,
          some ⟨true, some (100, 100), none⟩, none⟩⟩ 6000
          500).1.pet.walkState.map MWalkState.isWalking = some true ∧
        (⟨none, ⟨true, true, "walking", true, 1,
          some ⟨true, some (100, 100), none⟩, none⟩⟩ :
            MainCtl).pet.walkState.isSome = true) :=
  ⟨(C8_energy_gate ⟨none, ⟨true, true, "idle", true, 5, none, none⟩⟩
      100 100 0 0).1 rfl (by norm_num),
   ((C8_energy_gate ⟨none, ⟨true, true, "walking", true, 1,
        some ⟨true, some (100, 100), none⟩, none⟩⟩ 0 0 6000 500).2.2.1
      (by norm_num) rfl).1,
   ((C8_energy_gate ⟨none, ⟨true, true, "walking", true, 1,
        some ⟨true, some (100, 100), none⟩, none⟩⟩ 0 0 6000 500).2.2.1
      (by norm_num) rfl).2.2 (by norm_num)⟩

/-- C9 counterexample: in the main-process world the claim's
no-simultaneity part fails.  Starting from an idle entity, a walkRequested
event makes both the MovementSystem and the walking plugin start a walk
(walkState.isWalking = true); a subsequent dragStarted event lets the
MovementSystem cancel only its own entitiesWalking entry and lets the
dragging plugin mark dragState.isDragging = true, while the walking
plugin's walkState.isWalking stays true: the entity is simultaneously in a
walking and a dragging state (and walkingSystem.update keeps moving it). -/
theorem C9_drag_cancels_walk_counterexample :
    (processDragStarted (processWalkRequested c9Start 100 100)).pet.walkState =
      some ⟨true, some (100, 100), none⟩ ∧
    (processDragStarted (processWalkRequested c9Start 100 100)).pet.dragState =
      some ⟨true, (0, 0)⟩ ∧
    (processDragStarted (processWalkRequested c9Start 100 100)).pet.status =
      "dragging" := by
  norm_num [processDragStarted, processWalkRequested, c9Start,
    msStartWalking, wpStartWalking, wpSetWalk, wpSetWalkingStatus,
    msStartDragging, msStopWalking, dpStartDragging, dpMarkDragging]

theorem msStopWalking_walkState (s : MainCtl) :
    ((msStopWalking s).2).pet.walkState = s.pet.walkState := by
  unfold msStopWalking
  split <;> rfl

theorem msStopWalking_msTarget (s : MainCtl) :
    ((msStopWalking s).2).msTarget = none := by
  unfold msStopWalking
  split <;> rfl

theorem msStartDragging_walkState (s : MainCtl) :
    ((msStartDragging s).2).pet.walkState = s.pet.walkState := by
  unfold msStartDragging
  split
  · exact msStopWalking_walkState s
  · rfl

theorem statusIf_walkState (p : PetCtl) (str : String) :
    (if p.hasAppearance = true then { p with status := str }
     else p).walkState = p.walkState := by
  split <;> rfl

theorem dpMark_walkState (p : PetCtl) :
    (dpMarkDragging p).walkState = p.walkState := by
  unfold dpMarkDragging
  cases p.dragState <;> rfl

theorem dpMark_isDragging (p : PetCtl) :
    (dpMarkDragging p).dragState.map MDragState.isDragging = some true := by
  unfold dpMarkDragging
  cases hds : p.dragState <;> simp [hds]

theorem dpClear_isDragging (p : PetCtl) :
    (dpClearDragging p).dragState.map MDragState.isDragging =
      p.dragState.map (fun _ => false) := by
  unfold dpClearDragging
  cases hds : p.dragState <;> simp [hds]

theorem dpClear_status (p : PetCtl) :
    (dpClearDragging p).status = p.status := by
  unfold dpClearDragging
  cases p.dragState <;> rfl

theorem dpStartDragging_walkState (s : MainCtl) :
    ((dpStartDragging s).2).pet.walkState = s.pet.walkState := by
  unfold dpStartDragging
  simp only
  rw [dpMark_walkState, statusIf_walkState]

theorem msStopDragging_dragState (s : MainCtl) :
    ((msStopDragging s).2).pet.dragState = s.pet.dragState := by
  unfold msStopDragging
  split <;> rfl

theorem msStopDragging_hasAppearance (s : MainCtl) :
    ((msStopDragging s).2).pet.hasAppearance = s.pet.hasAppearance := by
  unfold msStopDragging
  split <;> rfl

theorem statusIf_dragState (p : PetCtl) (str : String) :
    (if p.hasAppearance = true then { p with status := str }
     else p).dragState = p.dragState := by
  split <;> rfl

/-- C9 (amended): the MovementSystem's dragStarted handler cancels the
MovementSystem's own walk entry before the drag takes effect (so within
the MovementSystem an entity is never simultaneously walking and
dragging), and after the full dragStarted processing the entitiesWalking
entry is gone and dragState.isDragging is set — but the walking plugin's
walkState is left untouched by the whole dragStarted pipeline, so the
no-simultaneity guarantee does not extend to the plugin's walk state (the
counterexample).  Processing dragEnded restores status idle
unconditionally (whatever the previous status was) and clears
dragState.isDragging. -/
theorem C9_drag_precedence (st : MainCtl) :
    (st.pet.hasAppearance = true →
      (msStartDragging st).1 = true ∧
      (msStartDragging st).2.msTarget = none ∧
      (msStartDragging st).2.pet.status = "dragging")
  ∧ ((processDragStarted st).pet.walkState = st.pet.walkState)
  ∧ (st.pet.hasAppearance = true →
      (processDragStarted st).msTarget = none ∧
      (processDragStarted st).pet.dragState.map MDragState.isDragging =
        some true)
  ∧ (st.pet.hasAppearance = true →
      (processDragEnded st).pet.status = "idle" ∧
      (msStopDragging st).1 = true ∧
      (processDragEnded st).pet.dragState.map MDragState.isDragging =
        st.pet.dragState.map (fun _ => false)) := by
  refine ⟨?_, ?_, ?_, ?_⟩
  · intro h
    unfold msStartDragging
    rw [if_pos h]
    exact ⟨rfl, msStopWalking_msTarget st, rfl⟩
  · show ((dpStartDragging (msStartDragging st).2).2).pet.walkState =
      st.pet.walkState
    rw [dpStartDragging_walkState, msStartDragging_walkState]
  · intro h
    constructor
    · show ((dpStartDragging (msStartDragging st).2).2).msTarget = none
      have h1 : ((dpStartDragging (msStartDragging st).2).2).msTarget =
          ((msStartDragging st).2).msTarget := rfl
      rw [h1]
      unfold msStartDragging
      rw [if_pos h]
      exact msStopWalking_msTarget st
    · show ((dpStartDragging (msStartDragging st).2).2).pet.dragState.map
        MDragState.isDragging = some true
      unfold dpStartDragging
      simp only
      exact dpMark_isDragging _
  · intro h
    refine ⟨?_, ?_, ?_⟩
    · show ((dpStopDragging (msStopDragging st).2).2).pet.status = "idle"
      unfold dpStopDragging
      simp only
      rw [dpClear_status]
      rw [if_pos (by rw [msStopDragging_hasAppearance]; exact h)]
    · unfold msStopDragging
      rw [if_pos h]
    · show ((dpStopDragging (msStopDragging st).2).2).pet.dragState.map
        MDragState.isDragging = st.pet.dragState.map (fun _ => false)
      unfold dpStopDragging
      simp only
      rw [dpClear_isDragging, statusIf_dragState, msStopDragging_dragState]

/-- Witness for C9 at the concrete idle entity: dragStarted cancels the
MovementSystem walk entry and sets status dragging; dragEnded restores
idle. -/
theorem C9_drag_precedence_witness :
    (msStartDragging c9Start).1 = true ∧
    (msStartDragging c9Start).2.msTarget = none ∧
    (msStartDragging c9Start).2.pet.status = "dragging" ∧
    (processDragEnded c9Start).pet.status = "idle" :=
  ⟨((C9_drag_precedence c9Start).1 rfl).1,
   ((C9_drag_precedence c9Start).1 rfl).2.1,
   ((C9_drag_precedence c9Start).1 rfl).2.2,
   ((C9_drag_precedence c9Start).2.2.2 rfl).1⟩

theorem sqrt2_mul_self : Real.sqrt 2 * Real.sqrt 2 = 2 :=
  Real.mul_self_sqrt (by norm_num)

theorem sqrt2_pos : 0 < Real.sqrt 2 :=
  Real.sqrt_pos.mpr (by norm_num)

theorem sqrt2_lb : (1.4 : ℝ) ≤ Real.sqrt 2 := by
  nlinarith [sqrt2_mul_self, sqrt2_pos]

theorem sqrt2_ub : Real.sqrt 2 < 1.42 := by
  nlinarith [sqrt2_mul_self, sqrt2_pos]

theorem sqrt_two_sq (c : ℝ) (hc : 0 ≤ c) :
    Real.sqrt (c * c + c * c) = c * Real.sqrt 2 := by
  have h : c * c + c * c = (c * Real.sqrt 2) * (c * Real.sqrt 2) := by
    have h2 := sqrt2_mul_self
    nlinarith [h2]
  rw [h]
  exact Real.sqrt_mul_self (by positivity)

theorem step_coord (c r x : ℝ) (hc : c ≠ 0) (hr : r ≠ 0) (h2 : r * r = 2) :
    x + c / (c * r) * 2 = x + r := by
  have hcr : c / (c * r) = 1 / r := by
    rw [div_mul_eq_div_div, div_self hc]
  rw [hcr]
  have h22 : 1 / r * 2 = r := by
    rw [div_mul_eq_mul_div, one_mul, div_eq_iff hr]
    exact h2.symm
  rw [h22]

theorem walk_move_step (n : ℕ) (hn : n ≤ 69) :
    walkTick (wstate ℝ (Real.sqrt 2) n) (wstate ℝ (Real.sqrt 2) (n + 1)) := by
  have h2 := sqrt2_mul_self
  have hpos := sqrt2_pos
  have hub := sqrt2_ub
  have hlb := sqrt2_lb
  have hncast : (n : ℝ) ≤ 69 := by exact_mod_cast hn
  have hnn : (0 : ℝ) ≤ (n : ℝ) := Nat.cast_nonneg n
  have hc : (0 : ℝ) < 100 - (n : ℝ) * Real.sqrt 2 := by nlinarith
  show walkSnap (wstate ℝ (Real.sqrt 2) n) (wstate ℝ (Real.sqrt 2) (n + 1))
      (100, 100) ∨
    walkMove (wstate ℝ (Real.sqrt 2) n) (wstate ℝ (Real.sqrt 2) (n + 1))
      (100, 100)
  refine Or.inr ⟨?_, ?_⟩
  · simp only [wstate]
    rw [sqrt_two_sq _ hc.le, not_lt]
    nlinarith
  · simp only [wstate]
    rw [sqrt_two_sq _ hc.le]
    rw [step_coord _ _ _ hc.ne' sqrt2_pos.ne' h2]
    rw [show ((n + 1 : ℕ) : ℝ) = (n : ℝ) + 1 by push_cast; ring]
    rw [show ((n : ℝ) + 1) * Real.sqrt 2 =
      (n : ℝ) * Real.sqrt 2 + Real.sqrt 2 by ring]

theorem walk_snap_step :
    walkTick (wstate ℝ (Real.sqrt 2) 70) (wdone ℝ) := by
  have h2 := sqrt2_mul_self
  have hpos := sqrt2_pos
  have hub := sqrt2_ub
  have hc : (0 : ℝ) ≤ 100 - ((70 : ℕ) : ℝ) * Real.sqrt 2 := by
    push_cast
    nlinarith
  show walkSnap (wstate ℝ (Real.sqrt 2) 70) (wdone ℝ) (100, 100) ∨
    walkMove (wstate ℝ (Real.sqrt 2) 70) (wdone ℝ) (100, 100)
  refine Or.inl ⟨?_, ?_⟩
  · simp only [wstate]
    rw [sqrt_two_sq _ hc]
    push_cast
    nlinarith
  · simp [wstate, wdone]

theorem walk_done_step : walkTick (wdone ℝ) (wdone ℝ) := rfl

theorem walkTick_det {s t1 t2 : WalkSim ℝ} (h1 : walkTick s t1)
    (h2 : walkTick s t2) : t1 = t2 := by
  unfold walkTick at h1 h2
  cases hs : s.target with
  | none =>
    rw [hs] at h1 h2
    have e1 : t1 = s := h1
    have e2 : t2 = s := h2
    rw [e1, e2]
  | some tg =>
    rw [hs] at h1 h2
    have d1 : walkSnap s t1 tg ∨ walkMove s t1 tg := h1
    have d2 : walkSnap s t2 tg ∨ walkMove s t2 tg := h2
    cases d1 with
    | inl ha =>
      cases d2 with
      | inl hb => rw [ha.2, hb.2]
      | inr hb => exact absurd ha.1 hb.1
    | inr ha =>
      cases d2 with
      | inl hb => exact absurd hb.1 ha.1
      | inr hb => rw [ha.2, hb.2]

theorem walkRun_explicit :
    WalkRun (fun n => if n ≤ 70 then wstate ℝ (Real.sqrt 2) n
      else wdone ℝ) := by
  constructor
  · simp [wstate]
  · intro n
    rcases lt_trichotomy n 70 with hn | hn | hn
    · have h1 : n ≤ 70 := le_of_lt hn
      have h2 : n + 1 ≤ 70 := hn
      simp only [if_pos h1, if_pos h2]
      exact walk_move_step n (by omega)
    · subst hn
      have h1 : (70 : ℕ) ≤ 70 := le_refl 70
      have h2 : ¬ (70 + 1 : ℕ) ≤ 70 := by omega
      simp only [if_pos h1, if_neg h2]
      exact walk_snap_step
    · have h1 : ¬ n ≤ 70 := by omega
      have h2 : ¬ n + 1 ≤ 70 := by omega
      simp only [if_neg h1, if_neg h2]
      exact walk_done_step

theorem walkRun_unique (traj : ℕ → WalkSim ℝ) (h : WalkRun traj) :
    ∀ n : ℕ, traj n =
      (fun k => if k ≤ 70 then wstate ℝ (Real.sqrt 2) k else wdone ℝ) n := by
  intro n
  induction n with
  | zero =>
    rw [h.1]
    simp [wstate]
  | succ k ih =>
    have hk := h.2 k
    rw [ih] at hk
    exact walkTick_det hk (walkRun_explicit.2 k)

/-- C3: the walk from (0,0) toward (100,100) at per-tick step 2.  Every
run of the movement update from that start state is uniquely determined:
for the first 70 ticks the entity is still walking at position
(n√2, n√2) with no targetReached emitted, and from tick 71 on the state is
exactly ⟨100, 100, no target, idle, one targetReached⟩ forever.  Hence the
walk terminates in finitely many (71) ticks, ends exactly at (100,100)
with no overshoot (the snap assigns the target coordinates), the walk
state is cleared and status returns to idle, and exactly one targetReached
event is emitted for the whole walk.  JS float arithmetic is idealized as
real arithmetic. -/
theorem C3_walk_termination :
    (∃ traj : ℕ → WalkSim ℝ, WalkRun traj)
  ∧ (∀ traj : ℕ → WalkSim ℝ, WalkRun traj → ∀ n : ℕ,
      traj n = if n ≤ 70 then wstate ℝ (Real.sqrt 2) n else wdone ℝ) :=
  ⟨⟨_, walkRun_explicit⟩, fun traj h n => walkRun_unique traj h n⟩

/-- Witness for C3: the explicit run evaluated at ticks 71 and 200 is the
final state (target reached exactly, walk cleared, one event). -/
theorem C3_walk_termination_witness :
    (fun n : ℕ => if n ≤ 70 then wstate ℝ (Real.sqrt 2) n else wdone ℝ) 71 =
      wdone ℝ ∧
    (fun n : ℕ => if n ≤ 70 then wstate ℝ (Real.sqrt 2) n else wdone ℝ) 200 =
      wdone ℝ :=
  ⟨(C3_walk_termination.2 _ walkRun_explicit 71).trans (by norm_num),
   (C3_walk_termination.2 _ walkRun_explicit 200).trans (by norm_num)⟩
